import Mathlib

unseal Rat.add Rat.sub Rat.mul Rat.inv

/-!
Verification development for the Gold Gladiator intraday strategy engine
(`src/engine.py`).  The pipeline is embedded shallowly: candles are records
of rational OHLC prices with a time stamp in minutes since midnight
(venue-local), and every stage of `find_intraday_setups` is translated to a
computable Lean function.  One trading day is represented by its (time
sorted) candle list, exactly the `day_df` slice that `find_intraday_setups`
processes after `_intraday_groups`; days are processed independently by the
source code, so all per-day claims are stated over a single day list.
-/

/-- One OHLC candle.  `time` is minutes since midnight in venue-local (New
York) time, mirroring the `DatetimeIndex` used by the engine; the hour used
by `_session_slice` is `time / 60`.  The field `open_` renders the `open`
column (`open` is a Lean keyword). -/
structure Candle where
  time : ℕ
  open_ : ℚ
  high : ℚ
  low : ℚ
  close : ℚ
deriving DecidableEq

instance : Inhabited Candle := ⟨⟨0, 0, 0, 0, 0⟩⟩

/-- Trade direction, as the `Direction` literal type in `engine.py`. -/
inductive Direction where
  | BUY
  | SELL
deriving DecidableEq

/-- Setup classification, as the `SetupType` literal type in `engine.py`. -/
inductive SetupType where
  | SETUP_1_CLEAN_DISTRIBUTION
  | SETUP_2_MANIPULATION_BOS
deriving DecidableEq

/-- Constant `SESSION_WINDOWS` from `engine.py`: (name, start hour, end hour), start
inclusive, end exclusive. -/
def SESSION_WINDOWS : List (String × ℕ × ℕ) := [("LONDON", 3, 5), ("NEW_YORK", 8, 10)]

/-- Constant `DOMINANT_MOVE_MIN_POINTS` from `engine.py`. -/
def DOMINANT_MOVE_MIN_POINTS : ℚ := 150

/-- Constant `PRE_WINDOW_LOOKBACK_CANDLES` from `engine.py`. -/
def PRE_WINDOW_LOOKBACK_CANDLES : ℕ := 60

/-- Constant `MANIPULATION_RECENT_CANDLES` from `engine.py`. -/
def MANIPULATION_RECENT_CANDLES : ℤ := 15

/-- Constant `MANIPULATION_BOS_MIN_POINTS` from `engine.py`. -/
def MANIPULATION_BOS_MIN_POINTS : ℚ := 120

/-- An emitted trade proposal: the fields of the `TradeSetup` dataclass that
carry signal geometry and diagnostics (the constant pass-through strings
`symbol` and `timeframe` are omitted; `trade_time` is the confirmation
candle's time stamp, which is what `row.name` holds in the source). -/
structure TradeSetup where
  session_name : String
  setup_type : SetupType
  direction : Direction
  entry : ℚ
  stop : ℚ
  target : ℚ
  trade_time : ℕ
  dominant_move_direction : Direction
  dominant_move_points : ℚ
deriving DecidableEq

/-- Source `_session_slice`: candles of the day whose hour lies in
`[start_hour, end_hour)`. -/
def sessionSlice (day : List Candle) (startHour endHour : ℕ) : List Candle :=
  day.filter fun c => decide (startHour ≤ c.time / 60) && decide (c.time / 60 < endHour)

/-- Source `_pre_window_slice`: candles of the day strictly before the first candle
of the given window slice (empty when the window slice is empty). -/
def preWindowSlice (day : List Candle) (w : List Candle) : List Candle :=
  match w with
  | [] => []
  | hd :: _ => day.filter fun c => decide (c.time < hd.time)

/-- Source `_calc_dominant_move`: close of the last pre-window candle minus open of
the first; direction `BUY` when the difference is positive, `SELL`
otherwise, but `none` when the absolute move is below
`DOMINANT_MOVE_MIN_POINTS`. -/
def calcDominantMove (pre : List Candle) : Option Direction × ℚ :=
  match pre with
  | [] => (none, 0)
  | _ :: _ =>
    let diff := (pre.getLastD default).close - (pre.headD default).open_
    let points := |diff|
    if points < DOMINANT_MOVE_MIN_POINTS then (none, points)
    else (some (if 0 < diff then Direction.BUY else Direction.SELL), points)

/-- First index of the running minimum: tail-recursive core of `np.argmin`
(`bv`/`bi` are the best value and index so far, `i` the index of the head of
the remaining list; ties keep the earlier index because only a strict `<`
updates the best). -/
def argminFrom (bv : ℚ) (bi i : ℕ) : List ℚ → ℕ
  | [] => bi
  | x :: xs => if x < bv then argminFrom x i (i + 1) xs else argminFrom bv bi (i + 1) xs

/-- Numpy `np.argmin`: index of the first occurrence of the minimum (0 on an empty
list, which the engine never passes). -/
def argmin : List ℚ → ℕ
  | [] => 0
  | x :: xs => argminFrom x 0 1 xs

/-- First index of the running maximum: tail-recursive core of `np.argmax`. -/
def argmaxFrom (bv : ℚ) (bi i : ℕ) : List ℚ → ℕ
  | [] => bi
  | x :: xs => if bv < x then argmaxFrom x i (i + 1) xs else argmaxFrom bv bi (i + 1) xs

/-- Numpy `np.argmax`: index of the first occurrence of the maximum. -/
def argmax : List ℚ → ℕ
  | [] => 0
  | x :: xs => argmaxFrom x 0 1 xs

/-- Source `_detect_manipulation_and_bos`: on fewer than 10 pre-window candles the
function reports "pre-window data too small" and returns `False`; otherwise
it restricts to the last `PRE_WINDOW_LOOKBACK_CANDLES` candles, finds the
extremum opposing the dominant direction with `np.argmin`/`np.argmax`,
requires that index to fall in the final `MANIPULATION_RECENT_CANDLES`
positions of the lookback (an integer comparison, as in Python), and
requires the impulse from the extremum to the final close to be at least
`MANIPULATION_BOS_MIN_POINTS`. -/
def detectManipulationAndBos (pre : List Candle) (dir : Direction) : Bool :=
  if pre.length < 10 then false
  else
    let lb := pre.drop (pre.length - PRE_WINDOW_LOOKBACK_CANDLES)
    let lastClose := (lb.getLastD default).close
    match dir with
    | Direction.BUY =>
      let lows := lb.map (·.low)
      let lowIdx := argmin lows
      let lowPrice := lows.getD lowIdx 0
      decide ((lb.length : ℤ) - MANIPULATION_RECENT_CANDLES ≤ (lowIdx : ℤ)) &&
        decide (MANIPULATION_BOS_MIN_POINTS ≤ lastClose - lowPrice)
    | Direction.SELL =>
      let highs := lb.map (·.high)
      let highIdx := argmax highs
      let highPrice := highs.getD highIdx 0
      decide ((lb.length : ℤ) - MANIPULATION_RECENT_CANDLES ≤ (highIdx : ℤ)) &&
        decide (MANIPULATION_BOS_MIN_POINTS ≤ highPrice - lastClose)

/-- The 3-candle gap test of `_find_recent_fvg_zone` at centre index `i`:
for `BUY`, `low[i+1] > high[i-1]`; for `SELL`, `low[i-1] > high[i+1]`. -/
def fvgCheck (pre : List Candle) (dir : Direction) (i : ℕ) : Bool :=
  match dir with
  | Direction.BUY => decide ((pre.getD (i - 1) default).high < (pre.getD (i + 1) default).low)
  | Direction.SELL => decide ((pre.getD (i + 1) default).high < (pre.getD (i - 1) default).low)

/-- The zone bounds `_find_recent_fvg_zone` returns for a gap at centre `i`. -/
def fvgZoneAt (pre : List Candle) (dir : Direction) (i : ℕ) : ℚ × ℚ :=
  match dir with
  | Direction.BUY => ((pre.getD (i - 1) default).high, (pre.getD (i + 1) default).low)
  | Direction.SELL => ((pre.getD (i + 1) default).high, (pre.getD (i - 1) default).low)

/-- Descending scan of `_find_recent_fvg_zone`: check centre indices
`n, n-1, ..., 2` (the source loop is `range(last_idx - 1, 1, -1)`) and
return the zone at the first match. -/
def fvgFrom (pre : List Candle) (dir : Direction) : ℕ → Option (ℚ × ℚ)
  | 0 => none
  | 1 => none
  | n + 2 =>
    if fvgCheck pre dir (n + 2) then some (fvgZoneAt pre dir (n + 2))
    else fvgFrom pre dir (n + 1)

/-- Source `_find_recent_fvg_zone`: most recent fair value gap in the trade
direction among the pre-window candles; `none` on fewer than 3 candles. -/
def findRecentFvgZone (pre : List Candle) (dir : Direction) : Option (ℚ × ℚ) :=
  if pre.length < 3 then none else fvgFrom pre dir (pre.length - 2)

/-- The zone-touch test in `_engulfing_in_window`: the candle's `[low, high]`
range intersects `[zone_low, zone_high]` (the `BUY` and `SELL` branches of
the source spell the same two comparisons). -/
def touchesZone (zlo zhi : ℚ) (r : Candle) : Bool :=
  decide (r.low ≤ zhi) && decide (zlo ≤ r.high)

/-- The per-candle acceptance test of `_engulfing_in_window` against the
previous candle's open/close: the body-size noise filter
(`body_curr < body_prev * 0.7` skips the candle) together with the
directional engulfing comparisons of the source. -/
def accept (dir : Direction) (prevO prevC o c : ℚ) : Bool :=
  decide (|prevC - prevO| * (7 / 10) ≤ |c - o|) &&
    match dir with
    | Direction.BUY => decide (o < c) && decide (prevO ≤ c) && decide (o ≤ prevC)
    | Direction.SELL => decide (c < o) && decide (c ≤ prevO) && decide (prevC ≤ o)

/-- Minimum of the `low` column of a nonempty candle list (`Series.min`). -/
def minLow : List Candle → ℚ
  | [] => 0
  | x :: xs => xs.foldl (fun a r => min a r.low) x.low

/-- Maximum of the `high` column of a nonempty candle list (`Series.max`). -/
def maxHigh : List Candle → ℚ
  | [] => 0
  | x :: xs => xs.foldl (fun a r => max a r.high) x.high

/-- The stop computed on acceptance at window index `idx`:
`window_df.iloc[max(0, idx - 3) : idx + 1]`, i.e. the confirmation candle
and up to 3 candles before it, taking the minimum low for `BUY` and the
maximum high for `SELL`. -/
def stopPrice (dir : Direction) (w : List Candle) (idx : ℕ) : ℚ :=
  let sl := (w.drop (idx - 3)).take (idx + 1 - (idx - 3))
  match dir with
  | Direction.BUY => minLow sl
  | Direction.SELL => maxHigh sl

/-- The scan loop of `_engulfing_in_window`: `rest` is the remaining window
suffix starting at index `idx`, `prevO`/`prevC` the previous candle's open
and close, `touched` whether some earlier candle already traded into the
zone.  On acceptance it returns the window index, entry (the close) and
stop. -/
def engGo (dir : Direction) (zlo zhi : ℚ) (w : List Candle) :
    List Candle → ℕ → ℚ → ℚ → Bool → Option (ℕ × ℚ × ℚ)
  | [], _, _, _, _ => none
  | r :: rest, idx, prevO, prevC, touched =>
    let touched2 := touched || touchesZone zlo zhi r
    if touched2 && accept dir prevO prevC r.open_ r.close then
      some (idx, r.close, stopPrice dir w idx)
    else engGo dir zlo zhi w rest (idx + 1) r.open_ r.close touched2

/-- Source `_engulfing_in_window`: `none` on windows of fewer than 2 candles,
otherwise scan from window index 1 with the first candle as the initial
previous candle and the zone untouched. -/
def engulfingInWindow (w : List Candle) (dir : Direction) (zlo zhi : ℚ) :
    Option (ℕ × ℚ × ℚ) :=
  if w.length < 2 then none
  else
    match w with
    | [] => none
    | p :: rest => engGo dir zlo zhi w rest 1 p.open_ p.close false

/-- The body of `find_intraday_setups` for one (day, session window) pair:
slice the window, skip if it or its pre-window slice is empty, classify the
dominant move and manipulation, select the zone, scan for the engulfing
confirmation, and reject non-positive risk before emitting. -/
def windowSetup (day : List Candle) (sess : String × ℕ × ℕ) (r : ℚ) : Option TradeSetup :=
  if (sessionSlice day sess.2.1 sess.2.2).isEmpty then none
  else if (preWindowSlice day (sessionSlice day sess.2.1 sess.2.2)).isEmpty then none
  else
    match calcDominantMove (preWindowSlice day (sessionSlice day sess.2.1 sess.2.2)) with
    | (none, _) => none
    | (some dir, pts) =>
      match findRecentFvgZone (preWindowSlice day (sessionSlice day sess.2.1 sess.2.2)) dir with
      | none => none
      | some (zlo, zhi) =>
        match engulfingInWindow (sessionSlice day sess.2.1 sess.2.2) dir zlo zhi with
        | none => none
        | some (i, entry, stop) =>
          if ((match dir with
              | Direction.BUY => entry - stop
              | Direction.SELL => stop - entry) : ℚ) ≤ 0 then none
          else some
            { session_name := sess.1
              setup_type :=
                if detectManipulationAndBos
                    (preWindowSlice day (sessionSlice day sess.2.1 sess.2.2)) dir
                  then SetupType.SETUP_2_MANIPULATION_BOS
                  else SetupType.SETUP_1_CLEAN_DISTRIBUTION
              direction := dir
              entry := entry
              stop := stop
              target :=
                match dir with
                | Direction.BUY => entry + (entry - stop) * r
                | Direction.SELL => entry - (stop - entry) * r
              trade_time := ((sessionSlice day sess.2.1 sess.2.2).getD i default).time
              dominant_move_direction := dir
              dominant_move_points := pts }

/-- Source `find_intraday_setups` restricted to one trading day: iterate the
session windows in order, collecting at most one setup per window. -/
def findIntradaySetups (day : List Candle) (r : ℚ) : List TradeSetup :=
  SESSION_WINDOWS.filterMap fun sess => windowSetup day sess r

/-- Outcome of a simulated trade. -/
inductive Outcome where
  | OPEN
  | HIT_TARGET
  | HIT_STOP
deriving DecidableEq

/-- The stop level is reached inside the candle's range: `low ≤ stop` for a
long trade, `stop ≤ high` for a short trade. -/
def trigStop (dir : Direction) (stop : ℚ) (x : Candle) : Prop :=
  match dir with
  | Direction.BUY => x.low ≤ stop
  | Direction.SELL => stop ≤ x.high

instance (dir : Direction) (stop : ℚ) (x : Candle) : Decidable (trigStop dir stop x) := by
  cases dir <;> simp only [trigStop] <;> infer_instance

/-- The target level is reached inside the candle's range: `target ≤ high`
for a long trade, `low ≤ target` for a short trade. -/
def trigTarget (dir : Direction) (target : ℚ) (x : Candle) : Prop :=
  match dir with
  | Direction.BUY => target ≤ x.high
  | Direction.SELL => x.low ≤ target

instance (dir : Direction) (target : ℚ) (x : Candle) : Decidable (trigTarget dir target x) := by
  cases dir <;> simp only [trigTarget] <;> infer_instance

/-- Modelled from the spec: the Outcome Simulator of section 4.7 is not
present under `src/` (only the strategy pipeline is); this walks the
post-confirmation candles in order, checking the stop level before the
target level on each candle, and leaves the trade `OPEN` when the data
ends with neither level reached. -/
def simulateTrade (dir : Direction) (stop target : ℚ) : List Candle → Outcome
  | [] => Outcome.OPEN
  | x :: rest =>
    if trigStop dir stop x then Outcome.HIT_STOP
    else if trigTarget dir target x then Outcome.HIT_TARGET
    else simulateTrade dir stop target rest

/-- Modelled from the spec: the Swing Detector of section 4.2 is not present
under `src/` (the stop logic of `_engulfing_in_window` never consults swing
points); index `i` of the series is a swing high for lookback width `L ≥ 1`
when `high[i]` is the strict maximum over `[i-L, i+L]`. -/
def swingHighAt (series : List Candle) (L i : ℕ) : Prop :=
  1 ≤ L ∧ L ≤ i ∧ i + L < series.length ∧
    ∀ j, i - L ≤ j → j ≤ i + L → j ≠ i →
      (series.getD j default).high < (series.getD i default).high

/-- The claim's engulfing body-containment condition (a): the candidate body
`[min(open,close), max(open,close)]` fully contains the previous candle's
body. -/
def specBodyContains (prev cur : Candle) : Prop :=
  min cur.open_ cur.close ≤ min prev.open_ prev.close ∧
    max prev.open_ prev.close ≤ max cur.open_ cur.close

instance (prev cur : Candle) : Decidable (specBodyContains prev cur) := by
  unfold specBodyContains; infer_instance

/-- The claim's manipulation test, word for word: over the last
`PRE_WINDOW_LOOKBACK_CANDLES` of the pre-window slice, the extremum opposing
the dominant direction must fall in the final `MANIPULATION_RECENT_CANDLES`
positions and the move from it to the final close must strictly exceed
`MANIPULATION_BOS_MIN_POINTS`; no minimum slice length is imposed. -/
def claimManipulation (pre : List Candle) (dir : Direction) : Prop :=
  pre ≠ [] ∧
    let lb := pre.drop (pre.length - PRE_WINDOW_LOOKBACK_CANDLES)
    let lastClose := (lb.getLastD default).close
    match dir with
    | Direction.BUY =>
      let lows := lb.map (·.low)
      (lb.length : ℤ) - MANIPULATION_RECENT_CANDLES ≤ (argmin lows : ℤ) ∧
        MANIPULATION_BOS_MIN_POINTS < lastClose - lows.getD (argmin lows) 0
    | Direction.SELL =>
      let highs := lb.map (·.high)
      (lb.length : ℤ) - MANIPULATION_RECENT_CANDLES ≤ (argmax highs : ℤ) ∧
        MANIPULATION_BOS_MIN_POINTS < highs.getD (argmax highs) 0 - lastClose

instance (pre : List Candle) (dir : Direction) : Decidable (claimManipulation pre dir) := by
  unfold claimManipulation; cases dir <;> simp only [] <;> infer_instance

/-- The engulfing acceptance conditions of the source, as a proposition on
whole candles: the noise filter together with the directional comparisons
`close > open ∧ close ≥ prev_open ∧ open ≤ prev_close` (mirrored for
`SELL`). -/
def engulfCond (dir : Direction) (prev cur : Candle) : Prop :=
  |prev.close - prev.open_| * (7 / 10) ≤ |cur.close - cur.open_| ∧
    match dir with
    | Direction.BUY => cur.open_ < cur.close ∧ prev.open_ ≤ cur.close ∧ cur.open_ ≤ prev.close
    | Direction.SELL => cur.close < cur.open_ ∧ cur.close ≤ prev.open_ ∧ prev.close ≤ cur.open_

/-- Some candle of the window at an index in `[1, j]` has traded into the
zone: the `touched_zone` state of `_engulfing_in_window` as seen by the
iteration at index `j`. -/
def touchedUpTo (zlo zhi : ℚ) (w : List Candle) (j : ℕ) : Prop :=
  ∃ k, 1 ≤ k ∧ k ≤ j ∧ touchesZone zlo zhi (w.getD k default) = true

/-- Window index `j` passes the full confirmation test of
`_engulfing_in_window`: it is a real index past the first window candle,
the zone has been touched at or before it, and it satisfies the engulfing
acceptance conditions against the immediately preceding window candle. -/
def qualAt (dir : Direction) (zlo zhi : ℚ) (w : List Candle) (j : ℕ) : Prop :=
  1 ≤ j ∧ j < w.length ∧ touchedUpTo zlo zhi w j ∧
    engulfCond dir (w.getD (j - 1) default) (w.getD j default)

/-- Concrete trading day: five pre-window candles (fewer than the
manipulation minimum of 10) carrying a 200 point rally, a bullish fair
value gap at centre index 3 (zone 1010 to 1180), and a London window in
which candle 1 touches the zone and candle 2 is a bullish engulfing
confirmation. -/
def day1 : List Candle :=
  [⟨0, 1000, 1005, 998, 1002⟩,
   ⟨10, 1002, 1006, 1000, 1004⟩,
   ⟨20, 1004, 1010, 1003, 1008⟩,
   ⟨30, 1008, 1200, 1007, 1190⟩,
   ⟨40, 1190, 1210, 1180, 1200⟩,
   ⟨180, 1100, 1105, 1095, 1103⟩,
   ⟨185, 1100, 1102, 1050, 1060⟩,
   ⟨190, 1055, 1110, 1048, 1100⟩,
   ⟨195, 1100, 1120, 1090, 1110⟩]

/-- The pre-window slice of `day1`'s London window. -/
def pre1 : List Candle := preWindowSlice day1 (sessionSlice day1 3 5)

/-- The setup the engine emits on `day1`. -/
def setup1 : TradeSetup :=
  { session_name := "LONDON"
    setup_type := SetupType.SETUP_1_CLEAN_DISTRIBUTION
    direction := Direction.BUY
    entry := 1100
    stop := 1048
    target := 1256
    trade_time := 190
    dominant_move_direction := Direction.BUY
    dominant_move_points := 200 }

/-- Concrete short-biased trading day for the stop-rule analysis: highs fall
monotonically through the pre-window candles and the first two window
candles, the bearish fair value gap sits at centre index 2 (zone 1420 to
1450), window candle 1 touches the zone, and window candle 2 — whose high
1435 is the largest in the day — is the bearish engulfing confirmation. -/
def day5 : List Candle :=
  [⟨0, 1500, 1505, 1460, 1470⟩,
   ⟨10, 1470, 1480, 1450, 1460⟩,
   ⟨20, 1460, 1465, 1400, 1410⟩,
   ⟨30, 1410, 1420, 1380, 1390⟩,
   ⟨40, 1390, 1405, 1330, 1340⟩,
   ⟨180, 1340, 1400, 1330, 1395⟩,
   ⟨185, 1395, 1430, 1390, 1425⟩,
   ⟨190, 1428, 1435, 1350, 1360⟩]

/-- The setup the engine emits on `day5`: its stop 1435 is the confirmation
candle's own high. -/
def setup5 : TradeSetup :=
  { session_name := "LONDON"
    setup_type := SetupType.SETUP_1_CLEAN_DISTRIBUTION
    direction := Direction.SELL
    entry := 1360
    stop := 1435
    target := 1135
    trade_time := 190
    dominant_move_direction := Direction.SELL
    dominant_move_points := 160 }

/-- Concrete two-window trading day: the candles before the London window
carry a move of only 5 points, so London is skipped, but the rally between
the windows makes the New York pre-window move 205 points and New York
emits a long setup. -/
def day3 : List Candle :=
  [⟨0, 2000, 2005, 1995, 2002⟩,
   ⟨30, 2002, 2010, 1998, 2005⟩,
   ⟨190, 2005, 2010, 2000, 2008⟩,
   ⟨320, 2008, 2060, 2005, 2055⟩,
   ⟨350, 2055, 2110, 2052, 2105⟩,
   ⟨380, 2105, 2160, 2103, 2155⟩,
   ⟨420, 2155, 2210, 2150, 2205⟩,
   ⟨480, 2205, 2210, 2200, 2208⟩,
   ⟨485, 2208, 2209, 2140, 2150⟩,
   ⟨490, 2145, 2220, 2138, 2215⟩]

/-- Four pre-window candles whose only bullish fair value gap sits at centre
index 1 (`low[2] = 11 > high[0] = 10`): the source's scan starts at centre
index 2 and misses it. -/
def preGap1 : List Candle :=
  [⟨0, 5, 10, 4, 9⟩,
   ⟨10, 9, 20, 8, 19⟩,
   ⟨20, 19, 25, 11, 24⟩,
   ⟨30, 24, 26, 9, 25⟩]

/-- Ten pre-window candles (enough for the manipulation test) whose lowest
low 1000 sits at index 0 with an impulse to the final close of exactly
`MANIPULATION_BOS_MIN_POINTS` = 120 points. -/
def pre6 : List Candle :=
  [⟨0, 1100, 1130, 1000, 1110⟩,
   ⟨10, 1100, 1130, 1001, 1110⟩,
   ⟨20, 1100, 1130, 1002, 1110⟩,
   ⟨30, 1100, 1130, 1003, 1110⟩,
   ⟨40, 1100, 1130, 1004, 1110⟩,
   ⟨50, 1100, 1130, 1005, 1110⟩,
   ⟨60, 1100, 1130, 1006, 1110⟩,
   ⟨70, 1100, 1130, 1007, 1110⟩,
   ⟨80, 1100, 1130, 1008, 1110⟩,
   ⟨90, 1100, 1130, 1009, 1120⟩]

/-- A trending day with a 750 point move but no fair value gap anywhere in
its pre-window candles, plus one London window candle. -/
def dayNoFvg : List Candle :=
  [⟨0, 1000, 1200, 1000, 1150⟩,
   ⟨10, 1150, 1400, 1100, 1350⟩,
   ⟨20, 1350, 1600, 1300, 1550⟩,
   ⟨30, 1550, 1800, 1390, 1750⟩,
   ⟨185, 1700, 1750, 1650, 1720⟩]

/-- A day whose only candle sits inside the London window, leaving the
pre-window slice empty. -/
def dayNoPre : List Candle := [⟨200, 1500, 1510, 1490, 1505⟩]

/-- A day sharing `day1`'s pre-window candles whose London window produces an
engulfing confirmation with entry 1100 equal to the computed stop (the
window's lows never drop below the entry — note the raw OHLC rows need not
be well-formed for the engine to process them), so the risk is 0 and the
non-positive-risk guard drops the setup. -/
def day7 : List Candle :=
  [⟨0, 1000, 1005, 998, 1002⟩,
   ⟨10, 1002, 1006, 1000, 1004⟩,
   ⟨20, 1004, 1010, 1003, 1008⟩,
   ⟨30, 1008, 1200, 1007, 1190⟩,
   ⟨40, 1190, 1210, 1180, 1200⟩,
   ⟨180, 1100, 1105, 1101, 1103⟩,
   ⟨185, 1100, 1102, 1150, 1060⟩,
   ⟨190, 1050, 1110, 1100, 1100⟩]

lemma accept_iff_engulfCond (dir : Direction) (prev cur : Candle) :
    accept dir prev.open_ prev.close cur.open_ cur.close = true ↔ engulfCond dir prev cur := by
  cases dir <;>
    simp [accept, engulfCond, Bool.and_eq_true, decide_eq_true_eq, and_assoc]

lemma touchedUpTo_zero (zlo zhi : ℚ) (w : List Candle) : ¬ touchedUpTo zlo zhi w 0 := by
  rintro ⟨k, hk1, hk0, -⟩
  omega

lemma touchedUpTo_succ (zlo zhi : ℚ) (w : List Candle) (idx : ℕ) (h1 : 1 ≤ idx) :
    touchedUpTo zlo zhi w idx ↔
      touchedUpTo zlo zhi w (idx - 1) ∨ touchesZone zlo zhi (w.getD idx default) = true := by
  constructor
  · rintro ⟨k, hk1, hk2, hk⟩
    rcases eq_or_lt_of_le hk2 with h | h
    · exact Or.inr (h ▸ hk)
    · exact Or.inl ⟨k, hk1, by omega, hk⟩
  · rintro (⟨k, hk1, hk2, hk⟩ | h)
    · exact ⟨k, hk1, by omega, hk⟩
    · exact ⟨idx, h1, le_rfl, h⟩

lemma qualAt_lt_length {dir : Direction} {zlo zhi : ℚ} {w : List Candle} {j : ℕ}
    (h : qualAt dir zlo zhi w j) : 1 ≤ j ∧ j < w.length :=
  ⟨h.1, h.2.1⟩

lemma engGo_some_iff (dir : Direction) (zlo zhi : ℚ) (w : List Candle) :
    ∀ (rest : List Candle) (idx : ℕ) (touched : Bool) (prevO prevC : ℚ),
      1 ≤ idx → rest = w.drop idx →
      (touched = true ↔ touchedUpTo zlo zhi w (idx - 1)) →
      prevO = (w.getD (idx - 1) default).open_ →
      prevC = (w.getD (idx - 1) default).close →
      ∀ j e s,
        (engGo dir zlo zhi w rest idx prevO prevC touched = some (j, e, s) ↔
          idx ≤ j ∧ qualAt dir zlo zhi w j ∧
            (∀ i, idx ≤ i → i < j → ¬ qualAt dir zlo zhi w i) ∧
            e = (w.getD j default).close ∧ s = stopPrice dir w j) := by
  intro rest
  induction rest with
  | nil =>
    intro idx touched prevO prevC h1 hrest htouch hpo hpc j e s
    have hlen : w.length ≤ idx := by
      by_contra hlt
      push_neg at hlt
      have := List.drop_eq_nil_iff.mp hrest.symm
      omega
    simp only [engGo]
    constructor
    · intro h; exact absurd h (by simp)
    · rintro ⟨hij, hq, -, -, -⟩
      have := qualAt_lt_length hq
      omega
  | cons r rest' ih =>
    intro idx touched prevO prevC h1 hrest htouch hpo hpc j e s
    subst hpo
    subst hpc
    have hlt : idx < w.length := by
      by_contra hge
      push_neg at hge
      rw [List.drop_eq_nil_iff.mpr hge] at hrest
      exact List.noConfusion hrest
    have hr : w.getD idx default = r := by
      have h0 : (w.drop idx)[0]? = some r := by rw [← hrest]; simp
      rw [List.getElem?_drop, Nat.add_zero] at h0
      rw [List.getD_eq_getElem?_getD, h0]
      rfl
    have hrest' : rest' = w.drop (idx + 1) := by
      have h2 : (w.drop idx).drop 1 = rest' := by rw [← hrest]; rfl
      rw [List.drop_drop] at h2
      exact h2.symm
    have htouch2 : (touched || touchesZone zlo zhi r) = true ↔ touchedUpTo zlo zhi w idx := by
      rw [Bool.or_eq_true, htouch, touchedUpTo_succ zlo zhi w idx h1, hr]
    have hqual_idx : qualAt dir zlo zhi w idx ↔
        ((touched || touchesZone zlo zhi r) = true ∧
          accept dir (w.getD (idx - 1) default).open_ (w.getD (idx - 1) default).close
            r.open_ r.close = true) := by
      unfold qualAt
      rw [htouch2]
      constructor
      · rintro ⟨-, -, ht, hacc⟩
        refine ⟨ht, ?_⟩
        have h3 := (accept_iff_engulfCond dir (w.getD (idx - 1) default)
          (w.getD idx default)).mpr hacc
        rwa [hr] at h3
      · rintro ⟨ht, hacc⟩
        refine ⟨h1, hlt, ht, ?_⟩
        rw [← hr] at hacc
        exact (accept_iff_engulfCond dir (w.getD (idx - 1) default) (w.getD idx default)).mp hacc
    simp only [engGo]
    split
    · -- test true: acceptance fires at index idx
      rename_i hbr
      have hq : qualAt dir zlo zhi w idx := hqual_idx.mpr (Bool.and_eq_true _ _ |>.mp hbr)
      constructor
      · intro h
        rw [Option.some_inj, Prod.mk.injEq, Prod.mk.injEq] at h
        obtain ⟨hj, he, hs⟩ := h
        subst hj
        exact ⟨le_rfl, hq, fun i hi1 hi2 => by omega, by rw [hr, he], hs.symm⟩
      · rintro ⟨hij, hqj, hmin, he, hs⟩
        have hji : j = idx := by
          by_contra hne
          exact hmin idx le_rfl (by omega) hq
        subst hji
        rw [he, hs, hr]
    · -- test false: the loop moves on to index idx + 1
      rename_i hbr
      have hnq : ¬ qualAt dir zlo zhi w idx := fun hq' =>
        hbr ((Bool.and_eq_true _ _).mpr (hqual_idx.mp hq'))
      have hcall := ih (idx + 1) (touched || touchesZone zlo zhi r) r.open_ r.close
        (by omega) hrest' (by simpa using htouch2)
        (by rw [Nat.add_sub_cancel, hr]) (by rw [Nat.add_sub_cancel, hr]) j e s
      rw [hcall]
      constructor
      · rintro ⟨hij, hq, hmin, he, hs⟩
        refine ⟨by omega, hq, ?_, he, hs⟩
        intro i hi1 hi2
        rcases Nat.eq_or_lt_of_le hi1 with h | h
        · exact h ▸ hnq
        · exact hmin i (by omega) hi2
      · rintro ⟨hij, hq, hmin, he, hs⟩
        have hne : j ≠ idx := fun h => hnq (h ▸ hq)
        exact ⟨by omega, hq, fun i hi1 hi2 => hmin i (by omega) hi2, he, hs⟩

lemma engulfingInWindow_some_iff (w : List Candle) (dir : Direction) (zlo zhi : ℚ)
    (j : ℕ) (e s : ℚ) :
    engulfingInWindow w dir zlo zhi = some (j, e, s) ↔
      qualAt dir zlo zhi w j ∧ (∀ i, i < j → ¬ qualAt dir zlo zhi w i) ∧
        e = (w.getD j default).close ∧ s = stopPrice dir w j := by
  unfold engulfingInWindow
  split
  · rename_i hlen
    constructor
    · intro h; exact absurd h (by simp)
    · rintro ⟨hq, -, -, -⟩
      have := qualAt_lt_length hq
      omega
  · rename_i hlen
    push_neg at hlen
    match w, hlen with
    | p :: rest, hlen =>
      have hcall := engGo_some_iff dir zlo zhi (p :: rest) rest 1 false p.open_ p.close
        le_rfl rfl (by simpa using touchedUpTo_zero zlo zhi (p :: rest)) rfl rfl j e s
      have hres : engGo dir zlo zhi (p :: rest) rest 1 p.open_ p.close false
          = some (j, e, s) ↔
            qualAt dir zlo zhi (p :: rest) j ∧
              (∀ i, i < j → ¬ qualAt dir zlo zhi (p :: rest) i) ∧
              e = ((p :: rest).getD j default).close ∧ s = stopPrice dir (p :: rest) j := by
        rw [hcall]
        constructor
        · rintro ⟨-, hq, hmin, he, hs⟩
          refine ⟨hq, ?_, he, hs⟩
          intro i hi
          rcases Nat.eq_zero_or_pos i with h0 | h0
          · subst h0; rintro ⟨h, -⟩; omega
          · exact hmin i h0 hi
        · rintro ⟨hq, hmin, he, hs⟩
          exact ⟨(qualAt_lt_length hq).1, hq, fun i hi1 hi2 => hmin i hi2, he, hs⟩
      exact hres

lemma fvgFrom_some_iff (pre : List Candle) (dir : Direction) :
    ∀ n z, fvgFrom pre dir n = some z ↔
      ∃ i, 2 ≤ i ∧ i ≤ n ∧ fvgCheck pre dir i = true ∧ z = fvgZoneAt pre dir i ∧
        ∀ j, i < j → j ≤ n → fvgCheck pre dir j = false := by
  intro n
  induction n with
  | zero =>
    intro z
    simp only [fvgFrom]
    constructor
    · intro h; exact absurd h (by simp)
    · rintro ⟨i, hi1, hi2, -⟩; omega
  | succ m ih =>
    intro z
    cases m with
    | zero =>
      simp only [fvgFrom]
      constructor
      · intro h; exact absurd h (by simp)
      · rintro ⟨i, hi1, hi2, -⟩; omega
    | succ k =>
      simp only [fvgFrom]
      split
      · rename_i hchk
        constructor
        · intro h
          rw [Option.some_inj] at h
          exact ⟨k + 2, by omega, le_rfl, hchk, h.symm, fun j hj1 hj2 => by omega⟩
        · rintro ⟨i, hi1, hi2, hci, hz, hmax⟩
          have hie : i = k + 2 := by
            by_contra hne
            have := hmax (k + 2) (by omega) le_rfl
            rw [this] at hchk
            exact Bool.noConfusion hchk
          subst hie
          rw [hz]
      · rename_i hchk
        rw [ih z]
        have hfalse : fvgCheck pre dir (k + 2) = false := by
          revert hchk
          cases fvgCheck pre dir (k + 2) <;> simp
        constructor
        · rintro ⟨i, hi1, hi2, hci, hz, hmax⟩
          refine ⟨i, hi1, by omega, hci, hz, ?_⟩
          intro j hj1 hj2
          rcases Nat.lt_or_ge j (k + 2) with h | h
          · exact hmax j hj1 (by omega)
          · have hje : j = k + 2 := by omega
            subst hje
            exact hfalse
        · rintro ⟨i, hi1, hi2, hci, hz, hmax⟩
          have hine : i ≠ k + 2 := by
            intro hie
            rw [hie, hfalse] at hci
            exact Bool.noConfusion hci
          exact ⟨i, hi1, by omega, hci, hz, fun j hj1 hj2 => hmax j hj1 (by omega)⟩

lemma findRecentFvgZone_some_iff (pre : List Candle) (dir : Direction) (z : ℚ × ℚ) :
    findRecentFvgZone pre dir = some z ↔
      3 ≤ pre.length ∧
        ∃ i, 2 ≤ i ∧ i ≤ pre.length - 2 ∧ fvgCheck pre dir i = true ∧
          z = fvgZoneAt pre dir i ∧
          ∀ j, i < j → j ≤ pre.length - 2 → fvgCheck pre dir j = false := by
  unfold findRecentFvgZone
  split
  · rename_i hlen
    constructor
    · intro h; exact absurd h (by simp)
    · rintro ⟨h3, -⟩; omega
  · rename_i hlen
    push_neg at hlen
    rw [fvgFrom_some_iff]
    constructor
    · rintro ⟨i, hi⟩; exact ⟨by omega, i, hi⟩
    · rintro ⟨-, i, hi⟩; exact ⟨i, hi⟩

lemma argminFrom_spec (xs : List ℚ) :
    ∀ (bv : ℚ) (bi i : ℕ),
      (argminFrom bv bi i xs = bi ∧ ∀ k, k < xs.length → bv ≤ xs.getD k 0) ∨
      (∃ k, k < xs.length ∧ argminFrom bv bi i xs = i + k ∧ xs.getD k 0 < bv ∧
        (∀ j, j < xs.length → xs.getD k 0 ≤ xs.getD j 0) ∧
        (∀ j, j < k → xs.getD k 0 < xs.getD j 0)) := by
  induction xs with
  | nil =>
    intro bv bi i
    exact Or.inl ⟨rfl, fun k hk => by simp at hk⟩
  | cons x tl ih =>
    intro bv bi i
    simp only [argminFrom]
    split
    · rename_i hx
      rcases ih x i (i + 1) with ⟨h1, h2⟩ | ⟨k, hk, hres, hlt, hmin, hfirst⟩
      · refine Or.inr ⟨0, by simp, by rw [h1, Nat.add_zero], by simpa using hx, ?_, by omega⟩
        intro j hj
        cases j with
        | zero => simp
        | succ m =>
          simp only [List.getD_cons_zero, List.getD_cons_succ]
          exact h2 m (by simpa using hj)
      · refine Or.inr ⟨k + 1, by simpa using hk, by rw [hres]; omega, ?_, ?_, ?_⟩
        · simpa using lt_trans hlt hx
        · intro j hj
          cases j with
          | zero => simpa using le_of_lt hlt
          | succ m => simpa using hmin m (by simpa using hj)
        · intro j hj
          cases j with
          | zero => simpa using hlt
          | succ m => simpa using hfirst m (by omega)
    · rename_i hx
      push_neg at hx
      rcases ih bv bi (i + 1) with ⟨h1, h2⟩ | ⟨k, hk, hres, hlt, hmin, hfirst⟩
      · refine Or.inl ⟨h1, ?_⟩
        intro k hk
        cases k with
        | zero => simpa using hx
        | succ m => simpa using h2 m (by simpa using hk)
      · refine Or.inr ⟨k + 1, by simpa using hk, by rw [hres]; omega, by simpa using hlt, ?_, ?_⟩
        · intro j hj
          cases j with
          | zero => simpa using le_of_lt (lt_of_lt_of_le hlt hx)
          | succ m => simpa using hmin m (by simpa using hj)
        · intro j hj
          cases j with
          | zero => simpa using lt_of_lt_of_le hlt hx
          | succ m => simpa using hfirst m (by omega)

lemma argmin_spec (xs : List ℚ) (hne : xs ≠ []) :
    argmin xs < xs.length ∧
      (∀ j, j < xs.length → xs.getD (argmin xs) 0 ≤ xs.getD j 0) ∧
      (∀ j, j < argmin xs → xs.getD (argmin xs) 0 < xs.getD j 0) := by
  match xs, hne with
  | x :: tl, _ =>
    have ha : argmin (x :: tl) = argminFrom x 0 1 tl := rfl
    rcases argminFrom_spec tl x 0 1 with ⟨h1, h2⟩ | ⟨k, hk, hres, hlt, hmin, hfirst⟩
    · rw [ha, h1]
      refine ⟨by simp, ?_, by omega⟩
      intro j hj
      cases j with
      | zero => simp
      | succ m => simpa using h2 m (by simpa using hj)
    · rw [ha, hres, show 1 + k = k + 1 by omega]
      refine ⟨by simpa using hk, ?_, ?_⟩
      · intro j hj
        cases j with
        | zero => simpa using le_of_lt hlt
        | succ m => simpa using hmin m (by simpa using hj)
      · intro j hj
        cases j with
        | zero => simpa using hlt
        | succ m => simpa using hfirst m (by omega)

lemma argmin_unique (xs : List ℚ) (hne : xs ≠ []) (i : ℕ) (hi : i < xs.length)
    (hmin : ∀ j, j < xs.length → xs.getD i 0 ≤ xs.getD j 0)
    (hfirst : ∀ j, j < i → xs.getD i 0 < xs.getD j 0) : i = argmin xs := by
  obtain ⟨ha, hamin, hafirst⟩ := argmin_spec xs hne
  rcases Nat.lt_trichotomy i (argmin xs) with h | h | h
  · have h1 := hafirst i h
    have h2 := hmin (argmin xs) ha
    exact absurd h2 (not_le_of_lt h1)
  · exact h
  · have h1 := hfirst (argmin xs) h
    have h2 := hamin i hi
    exact absurd h2 (not_le_of_lt h1)

lemma argmaxFrom_spec (xs : List ℚ) :
    ∀ (bv : ℚ) (bi i : ℕ),
      (argmaxFrom bv bi i xs = bi ∧ ∀ k, k < xs.length → xs.getD k 0 ≤ bv) ∨
      (∃ k, k < xs.length ∧ argmaxFrom bv bi i xs = i + k ∧ bv < xs.getD k 0 ∧
        (∀ j, j < xs.length → xs.getD j 0 ≤ xs.getD k 0) ∧
        (∀ j, j < k → xs.getD j 0 < xs.getD k 0)) := by
  induction xs with
  | nil =>
    intro bv bi i
    exact Or.inl ⟨rfl, fun k hk => by simp at hk⟩
  | cons x tl ih =>
    intro bv bi i
    simp only [argmaxFrom]
    split
    · rename_i hx
      rcases ih x i (i + 1) with ⟨h1, h2⟩ | ⟨k, hk, hres, hlt, hmax, hfirst⟩
      · refine Or.inr ⟨0, by simp, by rw [h1, Nat.add_zero], by simpa using hx, ?_, by omega⟩
        intro j hj
        cases j with
        | zero => simp
        | succ m =>
          simp only [List.getD_cons_zero, List.getD_cons_succ]
          exact h2 m (by simpa using hj)
      · refine Or.inr ⟨k + 1, by simpa using hk, by rw [hres]; omega, ?_, ?_, ?_⟩
        · simpa using lt_trans hx hlt
        · intro j hj
          cases j with
          | zero => simpa using le_of_lt hlt
          | succ m => simpa using hmax m (by simpa using hj)
        · intro j hj
          cases j with
          | zero => simpa using hlt
          | succ m => simpa using hfirst m (by omega)
    · rename_i hx
      push_neg at hx
      rcases ih bv bi (i + 1) with ⟨h1, h2⟩ | ⟨k, hk, hres, hlt, hmax, hfirst⟩
      · refine Or.inl ⟨h1, ?_⟩
        intro k hk
        cases k with
        | zero => simpa using hx
        | succ m => simpa using h2 m (by simpa using hk)
      · refine Or.inr ⟨k + 1, by simpa using hk, by rw [hres]; omega, by simpa using hlt, ?_, ?_⟩
        · intro j hj
          cases j with
          | zero => simpa using le_of_lt (lt_of_le_of_lt hx hlt)
          | succ m => simpa using hmax m (by simpa using hj)
        · intro j hj
          cases j with
          | zero => simpa using lt_of_le_of_lt hx hlt
          | succ m => simpa using hfirst m (by omega)

lemma argmax_spec (xs : List ℚ) (hne : xs ≠ []) :
    argmax xs < xs.length ∧
      (∀ j, j < xs.length → xs.getD j 0 ≤ xs.getD (argmax xs) 0) ∧
      (∀ j, j < argmax xs → xs.getD j 0 < xs.getD (argmax xs) 0) := by
  match xs, hne with
  | x :: tl, _ =>
    have ha : argmax (x :: tl) = argmaxFrom x 0 1 tl := rfl
    rcases argmaxFrom_spec tl x 0 1 with ⟨h1, h2⟩ | ⟨k, hk, hres, hlt, hmax, hfirst⟩
    · rw [ha, h1]
      refine ⟨by simp, ?_, by omega⟩
      intro j hj
      cases j with
      | zero => simp
      | succ m => simpa using h2 m (by simpa using hj)
    · rw [ha, hres, show 1 + k = k + 1 by omega]
      refine ⟨by simpa using hk, ?_, ?_⟩
      · intro j hj
        cases j with
        | zero => simpa using le_of_lt hlt
        | succ m => simpa using hmax m (by simpa using hj)
      · intro j hj
        cases j with
        | zero => simpa using hlt
        | succ m => simpa using hfirst m (by omega)

lemma argmax_unique (xs : List ℚ) (hne : xs ≠ []) (i : ℕ) (hi : i < xs.length)
    (hmax : ∀ j, j < xs.length → xs.getD j 0 ≤ xs.getD i 0)
    (hfirst : ∀ j, j < i → xs.getD j 0 < xs.getD i 0) : i = argmax xs := by
  obtain ⟨ha, hamax, hafirst⟩ := argmax_spec xs hne
  rcases Nat.lt_trichotomy i (argmax xs) with h | h | h
  · have h1 := hafirst i h
    have h2 := hmax (argmax xs) ha
    exact absurd h2 (not_le_of_lt h1)
  · exact h
  · have h1 := hfirst (argmax xs) h
    have h2 := hamax i hi
    exact absurd h2 (not_le_of_lt h1)

lemma foldl_minLow_spec (xs : List Candle) :
    ∀ a : ℚ,
      (xs.foldl (fun b r => min b r.low) a = a ∨
        ∃ r ∈ xs, xs.foldl (fun b r => min b r.low) a = r.low) ∧
      xs.foldl (fun b r => min b r.low) a ≤ a ∧
      ∀ r ∈ xs, xs.foldl (fun b r => min b r.low) a ≤ r.low := by
  induction xs with
  | nil => exact fun a => ⟨Or.inl rfl, le_rfl, fun r hr => absurd hr (List.not_mem_nil r)⟩
  | cons x tl ih =>
    intro a
    simp only [List.foldl_cons]
    obtain ⟨hatt, hba, hball⟩ := ih (min a x.low)
    refine ⟨?_, ?_, ?_⟩
    · rcases hatt with h | ⟨r, hr, he⟩
      · rcases min_cases a x.low with ⟨hm, -⟩ | ⟨hm, -⟩
        · exact Or.inl (h.trans hm)
        · exact Or.inr ⟨x, List.mem_cons_self x tl, h.trans hm⟩
      · exact Or.inr ⟨r, List.mem_cons_of_mem x hr, he⟩
    · exact hba.trans (min_le_left a x.low)
    · intro r hr
      rcases List.mem_cons.mp hr with h | h
      · subst h; exact hba.trans (min_le_right a r.low)
      · exact hball r h

lemma minLow_spec (l : List Candle) (hne : l ≠ []) :
    (∃ x ∈ l, minLow l = x.low) ∧ ∀ x ∈ l, minLow l ≤ x.low := by
  match l, hne with
  | x :: tl, _ =>
    have hdef : minLow (x :: tl) = tl.foldl (fun b r => min b r.low) x.low := rfl
    obtain ⟨hatt, hba, hball⟩ := foldl_minLow_spec tl x.low
    constructor
    · rcases hatt with h | ⟨r, hr, he⟩
      · exact ⟨x, List.mem_cons_self x tl, hdef.trans h⟩
      · exact ⟨r, List.mem_cons_of_mem x hr, hdef.trans he⟩
    · intro r hr
      rcases List.mem_cons.mp hr with h | h
      · subst h; exact hdef ▸ hba
      · exact hdef ▸ hball r h

lemma foldl_maxHigh_spec (xs : List Candle) :
    ∀ a : ℚ,
      (xs.foldl (fun b r => max b r.high) a = a ∨
        ∃ r ∈ xs, xs.foldl (fun b r => max b r.high) a = r.high) ∧
      a ≤ xs.foldl (fun b r => max b r.high) a ∧
      ∀ r ∈ xs, r.high ≤ xs.foldl (fun b r => max b r.high) a := by
  induction xs with
  | nil => exact fun a => ⟨Or.inl rfl, le_rfl, fun r hr => absurd hr (List.not_mem_nil r)⟩
  | cons x tl ih =>
    intro a
    simp only [List.foldl_cons]
    obtain ⟨hatt, hba, hball⟩ := ih (max a x.high)
    refine ⟨?_, ?_, ?_⟩
    · rcases hatt with h | ⟨r, hr, he⟩
      · rcases max_cases a x.high with ⟨hm, -⟩ | ⟨hm, -⟩
        · exact Or.inl (h.trans hm)
        · exact Or.inr ⟨x, List.mem_cons_self x tl, h.trans hm⟩
      · exact Or.inr ⟨r, List.mem_cons_of_mem x hr, he⟩
    · exact (le_max_left a x.high).trans hba
    · intro r hr
      rcases List.mem_cons.mp hr with h | h
      · subst h; exact (le_max_right a r.high).trans hba
      · exact hball r h

lemma maxHigh_spec (l : List Candle) (hne : l ≠ []) :
    (∃ x ∈ l, maxHigh l = x.high) ∧ ∀ x ∈ l, x.high ≤ maxHigh l := by
  match l, hne with
  | x :: tl, _ =>
    have hdef : maxHigh (x :: tl) = tl.foldl (fun b r => max b r.high) x.high := rfl
    obtain ⟨hatt, hba, hball⟩ := foldl_maxHigh_spec tl x.high
    constructor
    · rcases hatt with h | ⟨r, hr, he⟩
      · exact ⟨x, List.mem_cons_self x tl, hdef.trans h⟩
      · exact ⟨r, List.mem_cons_of_mem x hr, hdef.trans he⟩
    · intro r hr
      rcases List.mem_cons.mp hr with h | h
      · subst h; exact hdef ▸ hba
      · exact hdef ▸ hball r h

lemma mem_slice_iff (w : List Candle) (a b : ℕ) (x : Candle) :
    x ∈ (w.drop a).take b ↔
      ∃ j, a ≤ j ∧ j < a + b ∧ j < w.length ∧ x = w.getD j default := by
  rw [List.mem_iff_getElem?]
  constructor
  · rintro ⟨m, hm⟩
    have hlen : m < ((w.drop a).take b).length := by
      rcases List.getElem?_eq_some.mp hm with ⟨h, -⟩
      exact h
    have hmb : m < b := by
      simp only [List.length_take, List.length_drop, Nat.lt_min] at hlen
      exact hlen.1
    have hmw : m < w.length - a := by
      simp only [List.length_take, List.length_drop, Nat.lt_min] at hlen
      exact hlen.2
    rw [List.getElem?_take_of_lt hmb, List.getElem?_drop] at hm
    refine ⟨a + m, by omega, by omega, by omega, ?_⟩
    rw [List.getD_eq_getElem?_getD, hm]
    rfl
  · rintro ⟨j, hj1, hj2, hj3, he⟩
    refine ⟨j - a, ?_⟩
    rw [List.getElem?_take_of_lt (by omega), List.getElem?_drop,
      show a + (j - a) = j by omega]
    rw [List.getD_eq_getElem?_getD] at he
    rw [List.getElem?_eq_getElem hj3] at he ⊢
    simp only [Option.getD_some] at he
    rw [he]

lemma windowSetup_some_elim {day : List Candle} {sess : String × ℕ × ℕ} {r : ℚ}
    {s : TradeSetup} (h : windowSetup day sess r = some s) :
    ∃ dir pts zlo zhi i,
      calcDominantMove (preWindowSlice day (sessionSlice day sess.2.1 sess.2.2))
        = (some dir, pts) ∧
      findRecentFvgZone (preWindowSlice day (sessionSlice day sess.2.1 sess.2.2)) dir
        = some (zlo, zhi) ∧
      engulfingInWindow (sessionSlice day sess.2.1 sess.2.2) dir zlo zhi
        = some (i, s.entry, s.stop) ∧
      s.session_name = sess.1 ∧
      s.direction = dir ∧ s.dominant_move_direction = dir ∧
      s.dominant_move_points = pts ∧
      s.setup_type = (if detectManipulationAndBos
          (preWindowSlice day (sessionSlice day sess.2.1 sess.2.2)) dir
        then SetupType.SETUP_2_MANIPULATION_BOS
        else SetupType.SETUP_1_CLEAN_DISTRIBUTION) ∧
      s.trade_time = ((sessionSlice day sess.2.1 sess.2.2).getD i default).time ∧
      (dir = Direction.BUY → s.stop < s.entry ∧
        s.target = s.entry + (s.entry - s.stop) * r) ∧
      (dir = Direction.SELL → s.entry < s.stop ∧
        s.target = s.entry - (s.stop - s.entry) * r) := by
  unfold windowSetup at h
  split at h
  · exact absurd h (by simp)
  split at h
  · exact absurd h (by simp)
  split at h
  · exact absurd h (by simp)
  rename_i dir pts hdom
  split at h
  · exact absurd h (by simp)
  rename_i zone zlo zhi hzone
  split at h
  · exact absurd h (by simp)
  rename_i eng i entry stop heng
  split at h
  · exact absurd h (by simp)
  rename_i hrisk
  rw [Option.some_inj] at h
  subst h
  refine ⟨dir, pts, zlo, zhi, i, hdom, hzone, heng, rfl, rfl, rfl, rfl, rfl, rfl, ?_, ?_⟩
  · intro hd
    subst hd
    simp only [] at hrisk ⊢
    constructor
    · push_neg at hrisk
      linarith
    · trivial
  · intro hd
    subst hd
    simp only [] at hrisk ⊢
    constructor
    · push_neg at hrisk
      linarith
    · trivial

lemma calcDominantMove_some {pre : List Candle} {dir : Direction} {pts : ℚ}
    (h : calcDominantMove pre = (some dir, pts)) :
    DOMINANT_MOVE_MIN_POINTS ≤ |(pre.getLastD default).close - (pre.headD default).open_| ∧
      pts = |(pre.getLastD default).close - (pre.headD default).open_| ∧
      dir = (if 0 < (pre.getLastD default).close - (pre.headD default).open_
        then Direction.BUY else Direction.SELL) := by
  cases pre with
  | nil => exact absurd h (by simp [calcDominantMove])
  | cons x tl =>
    unfold calcDominantMove at h
    simp only [] at h
    split at h
    · exact absurd h (by simp)
    · rename_i hge
      push_neg at hge
      rw [Prod.mk.injEq] at h
      obtain ⟨h1, h2⟩ := h
      rw [Option.some_inj] at h1
      exact ⟨hge, h2.symm, h1.symm⟩

lemma calcDominantMove_small (pre : List Candle) (hne : pre ≠ [])
    (hsmall : |(pre.getLastD default).close - (pre.headD default).open_| <
      DOMINANT_MOVE_MIN_POINTS) :
    calcDominantMove pre
      = (none, |(pre.getLastD default).close - (pre.headD default).open_|) := by
  match pre, hne with
  | x :: tl, _ =>
    unfold calcDominantMove
    simp only []
    rw [if_pos hsmall]

lemma windowSetup_none_of_emptyPre (day : List Candle) (sess : String × ℕ × ℕ) (r : ℚ)
    (hpre : preWindowSlice day (sessionSlice day sess.2.1 sess.2.2) = []) :
    windowSetup day sess r = none := by
  unfold windowSetup
  split
  · rfl
  split
  · rfl
  · rename_i h2
    exact absurd (by rw [hpre]; rfl) h2

lemma windowSetup_none_of_smallMove (day : List Candle) (sess : String × ℕ × ℕ) (r : ℚ)
    (hpre : preWindowSlice day (sessionSlice day sess.2.1 sess.2.2) ≠ [])
    (hsmall :
      |((preWindowSlice day (sessionSlice day sess.2.1 sess.2.2)).getLastD default).close -
        ((preWindowSlice day (sessionSlice day sess.2.1 sess.2.2)).headD default).open_| <
        DOMINANT_MOVE_MIN_POINTS) :
    windowSetup day sess r = none := by
  have hdom := calcDominantMove_small _ hpre hsmall
  unfold windowSetup
  split
  · rfl
  split
  · rfl
  split
  · rfl
  · rename_i dir pts hdom'
    rw [hdom'] at hdom
    rw [Prod.mk.injEq] at hdom
    exact absurd hdom.1 (by simp)

lemma windowSetup_none_of_noZone (day : List Candle) (sess : String × ℕ × ℕ) (r : ℚ)
    (dir : Direction) (pts : ℚ)
    (hdom : calcDominantMove (preWindowSlice day (sessionSlice day sess.2.1 sess.2.2))
      = (some dir, pts))
    (hzone : findRecentFvgZone (preWindowSlice day (sessionSlice day sess.2.1 sess.2.2)) dir
      = none) :
    windowSetup day sess r = none := by
  unfold windowSetup
  split
  · rfl
  split
  · rfl
  split
  · rfl
  · rename_i dir' pts' hdom'
    rw [hdom'] at hdom
    rw [Prod.mk.injEq] at hdom
    obtain ⟨h1, -⟩ := hdom
    rw [Option.some_inj] at h1
    subst h1
    split
    · rfl
    · rename_i z zlo zhi hz
      rw [hzone] at hz
      exact absurd hz (by simp)

lemma windowSetup_session (day : List Candle) (sess : String × ℕ × ℕ) (r : ℚ)
    (s : TradeSetup) (h : windowSetup day sess r = some s) : s.session_name = sess.1 := by
  obtain ⟨dir, pts, zlo, zhi, i, -, -, -, hname, -⟩ := windowSetup_some_elim h
  exact hname

/-- C1: counterexample.  The claim's condition (a) — body containment via
`min(open,close) ≤ prev body-low` and `max(open,close) ≥ prev body-high` —
is not what the code tests.  With a bullish previous candle (open 10,
close 20) the candidate (open 12, close 25) is accepted by
`_engulfing_in_window` as the engulfing confirmation (index 1, entry 25,
stop 9) even though its body `[12, 25]` does not contain the previous body
`[10, 20]`; conditions (b) and (c) do hold, so the acceptance-iff of the
claim is false at this input. -/
theorem C1_counterexample :
    engulfingInWindow [⟨180, 10, 21, 9, 20⟩, ⟨185, 12, 26, 11, 25⟩] Direction.BUY 0 15
      = some (1, 25, 9) ∧
    ¬ specBodyContains ⟨180, 10, 21, 9, 20⟩ ⟨185, 12, 26, 11, 25⟩ ∧
    engulfCond Direction.BUY ⟨180, 10, 21, 9, 20⟩ ⟨185, 12, 26, 11, 25⟩ := by
  refine ⟨by decide, by decide, ?_⟩
  unfold engulfCond
  refine ⟨by decide, by decide, by decide, by decide⟩

/-- C1 (amended): after the zone has been touched (`touchedUpTo`), a window
candle is accepted as the engulfing confirmation iff (a′) for LONG its close
is at least the previous candle's open and its open is at most the previous
candle's close (mirrored for SHORT) — not the claim's body-containment via
body min/max — together with (b) the matching close/open direction and (c)
the 0.7 body-size noise filter (all packaged in `engulfCond`/`qualAt`), and
the scan returns the first window index satisfying all of this, with entry
the candle's close and stop the slice extremum of `stopPrice`. -/
theorem C1_amended (w : List Candle) (dir : Direction) (zlo zhi : ℚ) (j : ℕ) (e s : ℚ) :
    engulfingInWindow w dir zlo zhi = some (j, e, s) ↔
      qualAt dir zlo zhi w j ∧ (∀ i, i < j → ¬ qualAt dir zlo zhi w i) ∧
        e = (w.getD j default).close ∧ s = stopPrice dir w j :=
  engulfingInWindow_some_iff w dir zlo zhi j e s

lemma windowSetup_none_of_badRisk (day : List Candle) (sess : String × ℕ × ℕ) (r : ℚ)
    (dir : Direction) (pts zlo zhi : ℚ) (i : ℕ) (entry stop : ℚ)
    (hbad : ((match dir with
      | Direction.BUY => entry - stop
      | Direction.SELL => stop - entry) : ℚ) ≤ 0)
    (hdom : calcDominantMove (preWindowSlice day (sessionSlice day sess.2.1 sess.2.2))
      = (some dir, pts))
    (hzone : findRecentFvgZone (preWindowSlice day (sessionSlice day sess.2.1 sess.2.2)) dir
      = some (zlo, zhi))
    (heng : engulfingInWindow (sessionSlice day sess.2.1 sess.2.2) dir zlo zhi
      = some (i, entry, stop)) :
    windowSetup day sess r = none := by
  cases dir with
  | BUY =>
    simp only [] at hbad
    unfold windowSetup
    split
    · rfl
    split
    · rfl
    split
    · rfl
    · rename_i dir' pts' hdom'
      rw [hdom] at hdom'
      rw [Prod.mk.injEq] at hdom'
      obtain ⟨h1, -⟩ := hdom'
      rw [Option.some_inj] at h1
      subst h1
      split
      · rfl
      · rename_i z zlo' zhi' hz
        rw [hzone] at hz
        rw [Option.some_inj, Prod.mk.injEq] at hz
        obtain ⟨hz1, hz2⟩ := hz
        subst hz1
        subst hz2
        split
        · rfl
        · rename_i e i' entry' stop' he
          rw [heng] at he
          rw [Option.some_inj, Prod.mk.injEq, Prod.mk.injEq] at he
          obtain ⟨-, he2, he3⟩ := he
          subst he2
          subst he3
          rw [if_pos hbad]
  | SELL =>
    simp only [] at hbad
    unfold windowSetup
    split
    · rfl
    split
    · rfl
    split
    · rfl
    · rename_i dir' pts' hdom'
      rw [hdom] at hdom'
      rw [Prod.mk.injEq] at hdom'
      obtain ⟨h1, -⟩ := hdom'
      rw [Option.some_inj] at h1
      subst h1
      split
      · rfl
      · rename_i z zlo' zhi' hz
        rw [hzone] at hz
        rw [Option.some_inj, Prod.mk.injEq] at hz
        obtain ⟨hz1, hz2⟩ := hz
        subst hz1
        subst hz2
        split
        · rfl
        · rename_i e i' entry' stop' he
          rw [heng] at he
          rw [Option.some_inj, Prod.mk.injEq, Prod.mk.injEq] at he
          obtain ⟨-, he2, he3⟩ := he
          subst he2
          subst he3
          rw [if_pos hbad]

/-- C3: every TradeSetup emitted by `find_intraday_setups` has its stop on
the loss side of the entry (stop below entry for BUY, above for SELL) and a
target displaced from the entry by exactly the r-multiple times the
entry-stop distance; and when the engulfing scan yields an entry/stop pair
of non-positive risk, the window simply produces no TradeSetup — the total
function returns `none`, an ordinary empty result. -/
theorem C3_setup_geometry :
    (∀ (day : List Candle) (r : ℚ) (s : TradeSetup), s ∈ findIntradaySetups day r →
      (s.direction = Direction.BUY →
        s.stop < s.entry ∧ s.target = s.entry + r * |s.entry - s.stop|) ∧
      (s.direction = Direction.SELL →
        s.entry < s.stop ∧ s.target = s.entry - r * |s.entry - s.stop|)) ∧
    (∀ (day : List Candle) (sess : String × ℕ × ℕ) (r : ℚ) (dir : Direction)
      (pts zlo zhi : ℚ) (i : ℕ) (entry stop : ℚ),
      calcDominantMove (preWindowSlice day (sessionSlice day sess.2.1 sess.2.2))
        = (some dir, pts) →
      findRecentFvgZone (preWindowSlice day (sessionSlice day sess.2.1 sess.2.2)) dir
        = some (zlo, zhi) →
      engulfingInWindow (sessionSlice day sess.2.1 sess.2.2) dir zlo zhi
        = some (i, entry, stop) →
      ((match dir with
        | Direction.BUY => entry - stop
        | Direction.SELL => stop - entry) : ℚ) ≤ 0 →
      windowSetup day sess r = none) := by
  refine ⟨?_, fun day sess r dir pts zlo zhi i entry stop hdom hzone heng hbad =>
    windowSetup_none_of_badRisk day sess r dir pts zlo zhi i entry stop hbad hdom hzone heng⟩
  intro day r s h
  rw [findIntradaySetups, List.mem_filterMap] at h
  obtain ⟨sess, -, hws⟩ := h
  obtain ⟨dir, pts, zlo, zhi, i, -, -, -, -, hdir, -, -, -, -, hbuy, hsell⟩ :=
    windowSetup_some_elim hws
  constructor
  · intro hd
    rw [hd] at hdir
    obtain ⟨hlt, htgt⟩ := hbuy hdir.symm
    refine ⟨hlt, ?_⟩
    rw [htgt, abs_of_pos (by linarith)]
    ring
  · intro hd
    rw [hd] at hdir
    obtain ⟨hlt, htgt⟩ := hsell hdir.symm
    refine ⟨hlt, ?_⟩
    rw [abs_of_neg (by linarith)]
    rw [htgt]
    ring

/-- C3 witness: on `day1` the emitted setup has entry 1100, stop 1048 and
target 1256 = 1100 + 3 × 52, and on `day7` — whose confirmation carries
entry = stop = 1100, a zero-risk pair — the window emits nothing. -/
theorem C3_witness :
    (setup1.stop < setup1.entry ∧
      setup1.target = setup1.entry + 3 * |setup1.entry - setup1.stop|) ∧
    windowSetup day7 ("LONDON", 3, 5) 3 = none :=
  ⟨(C3_setup_geometry.1 day1 3 setup1 (by decide)).1 (by decide),
    C3_setup_geometry.2 day7 ("LONDON", 3, 5) 3 Direction.BUY 200 1010 1180 2 1100 1100
      (by decide) (by decide) (by decide) (by decide)⟩

/-- C9: in the Outcome Simulator's forward walk, when the first candle that
reaches either level actually straddles both the stop and the target, the
trade resolves as HIT_STOP — the stop is checked first on every candle. -/
theorem C9_tiebreak_stop_first (dir : Direction) (stop target : ℚ)
    (pre : List Candle) (c : Candle) (rest : List Candle)
    (hpre : ∀ x ∈ pre, ¬ trigStop dir stop x ∧ ¬ trigTarget dir target x)
    (hstop : trigStop dir stop c) (_htarget : trigTarget dir target c) :
    simulateTrade dir stop target (pre ++ c :: rest) = Outcome.HIT_STOP := by
  induction pre with
  | nil =>
    rw [List.nil_append]
    unfold simulateTrade
    rw [if_pos hstop]
  | cons x xs ih =>
    have hx := hpre x (List.mem_cons_self x xs)
    rw [List.cons_append]
    unfold simulateTrade
    rw [if_neg hx.1, if_neg hx.2]
    exact ih fun y hy => hpre y (List.mem_cons_of_mem x hy)

/-- C9 witness: a long trade with stop 10 and target 20 whose very first
post-confirmation candle spans 5 to 25 (both levels inside the range)
resolves as HIT_STOP. -/
theorem C9_witness :
    simulateTrade Direction.BUY 10 20 ([] ++ ⟨0, 15, 25, 5, 12⟩ :: []) = Outcome.HIT_STOP :=
  C9_tiebreak_stop_first Direction.BUY 10 20 [] ⟨0, 15, 25, 5, 12⟩ []
    (fun x hx => absurd hx (List.not_mem_nil x)) (by decide) (by decide)

/-- C10: `_engulfing_in_window` returns no confirmation on windows with
fewer than 2 candles; any confirmation it returns sits at window index at
least 1, never at the window's first candle; and a window none of whose
indices passes the full confirmation test — in particular one whose only
qualifying candle would be index 0 — produces no confirmation at all. -/
theorem C10_first_candle_never_confirms :
    (∀ (w : List Candle) (dir : Direction) (zlo zhi : ℚ), w.length < 2 →
      engulfingInWindow w dir zlo zhi = none) ∧
    (∀ (w : List Candle) (dir : Direction) (zlo zhi : ℚ) (j : ℕ) (e s : ℚ),
      engulfingInWindow w dir zlo zhi = some (j, e, s) → 1 ≤ j) ∧
    (∀ (w : List Candle) (dir : Direction) (zlo zhi : ℚ),
      (∀ j, ¬ qualAt dir zlo zhi w j) → engulfingInWindow w dir zlo zhi = none) := by
  refine ⟨?_, ?_, ?_⟩
  · intro w dir zlo zhi hlen
    unfold engulfingInWindow
    rw [if_pos hlen]
  · intro w dir zlo zhi j e s h
    exact ((engulfingInWindow_some_iff w dir zlo zhi j e s).mp h).1.1
  · intro w dir zlo zhi hq
    rcases heng : engulfingInWindow w dir zlo zhi with _ | t
    · rfl
    · obtain ⟨j, e, s⟩ := t
      exact absurd ((engulfingInWindow_some_iff w dir zlo zhi j e s).mp heng).1 (hq j)

/-- C10 witness: a 1-candle window yields no confirmation; the `day1` London
window's confirmation sits at index 2 ≥ 1; a 2-candle window that never
touches the zone (100, 200) yields no confirmation. -/
theorem C10_witness :
    engulfingInWindow [⟨200, 1500, 1510, 1490, 1505⟩] Direction.BUY 0 1 = none ∧
    (1 : ℕ) ≤ 2 ∧
    engulfingInWindow [⟨180, 1, 2, 0, 1⟩, ⟨185, 1, 2, 0, 1⟩] Direction.BUY 100 200 = none := by
  refine ⟨C10_first_candle_never_confirms.1 _ Direction.BUY 0 1 (by decide),
    C10_first_candle_never_confirms.2.1 (sessionSlice day1 3 5) Direction.BUY 1010 1180
      2 1100 1048 (by decide), ?_⟩
  refine C10_first_candle_never_confirms.2.2 _ Direction.BUY 100 200 ?_
  rintro j ⟨hj1, hj2, ⟨k, hk1, hk2, htouch⟩, -⟩
  have hj : j = 1 := by
    simp only [List.length_cons, List.length_nil] at hj2
    omega
  subst hj
  have hk : k = 1 := by omega
  subst hk
  exact absurd htouch (by decide)

lemma not_swingHighAt_left (series : List Candle) (L i : ℕ) (h1 : 1 ≤ i)
    (h : (series.getD i default).high ≤ (series.getD (i - 1) default).high) :
    ¬ swingHighAt series L i := by
  rintro ⟨hL, hLi, hlen, hall⟩
  exact absurd (hall (i - 1) (by omega) (by omega) (by omega)) (not_lt_of_le h)

lemma not_swingHighAt_right (series : List Candle) (L i : ℕ)
    (h : (series.getD i default).high ≤ (series.getD (i + 1) default).high) :
    ¬ swingHighAt series L i := by
  rintro ⟨hL, hLi, hlen, hall⟩
  exact absurd (hall (i + 1) (by omega) (by omega) (by omega)) (not_lt_of_le h)

/-- C5: counterexample.  On `day5` the emitted (SELL) setup's stop is 1435 —
the confirmation candle's own high, taken by the code from the slice
`window[idx-3 : idx+1]` that includes the confirmation candle.  The claim's
rule cannot produce this number: the confirmation candle is day index 7
(trade time 190), no day index before it is a swing high for any lookback
width L (highs are falling until the zone touch and the confirmation high
tops its neighbour), so fewer than 2 opposite swings exist and the claimed
fallback applies, but the maximum high of the last 3 candles before the
confirmation (day indices 4, 5, 6) is 1430 ≠ 1435. -/
theorem C5_counterexample :
    (findIntradaySetups day5 3).map (·.stop) = [1435] ∧
    (∀ L i, i < 7 → ¬ swingHighAt day5 L i) ∧
    maxHigh ((day5.drop 4).take 3) = 1430 ∧ (1430 : ℚ) ≠ 1435 ∧
    (findIntradaySetups day5 3).map (·.trade_time) = [190] ∧
    (day5.getD 7 default).time = 190 := by
  refine ⟨by decide, ?_, by decide, by decide, by decide, by decide⟩
  intro L i hi
  interval_cases i
  · rintro ⟨hL, hLi, -, -⟩; omega
  · exact not_swingHighAt_left day5 L 1 (by omega) (by decide)
  · exact not_swingHighAt_left day5 L 2 (by omega) (by decide)
  · exact not_swingHighAt_left day5 L 3 (by omega) (by decide)
  · exact not_swingHighAt_left day5 L 4 (by omega) (by decide)
  · exact not_swingHighAt_left day5 L 5 (by omega) (by decide)
  · exact not_swingHighAt_right day5 L 6 (by decide)

/-- C5 (amended): the stop of every emitted TradeSetup is not a swing-point
price — no swing logic exists in the code — but the minimum low (BUY) or
maximum high (SELL) attained among the window candles with indices in
`[idx-3, idx]`, where `idx` is the confirmation index: the slice always
includes the confirmation candle itself, not only the 3 candles before
it. -/
theorem C5_amended (day : List Candle) (sess : String × ℕ × ℕ) (r : ℚ) (s : TradeSetup)
    (h : windowSetup day sess r = some s) :
    ∃ dir zlo zhi i,
      s.direction = dir ∧
      engulfingInWindow (sessionSlice day sess.2.1 sess.2.2) dir zlo zhi
        = some (i, s.entry, s.stop) ∧
      (dir = Direction.BUY →
        (∃ j, i - 3 ≤ j ∧ j ≤ i ∧ j < (sessionSlice day sess.2.1 sess.2.2).length ∧
          s.stop = ((sessionSlice day sess.2.1 sess.2.2).getD j default).low) ∧
        (∀ j, i - 3 ≤ j → j ≤ i → j < (sessionSlice day sess.2.1 sess.2.2).length →
          s.stop ≤ ((sessionSlice day sess.2.1 sess.2.2).getD j default).low)) ∧
      (dir = Direction.SELL →
        (∃ j, i - 3 ≤ j ∧ j ≤ i ∧ j < (sessionSlice day sess.2.1 sess.2.2).length ∧
          s.stop = ((sessionSlice day sess.2.1 sess.2.2).getD j default).high) ∧
        (∀ j, i - 3 ≤ j → j ≤ i → j < (sessionSlice day sess.2.1 sess.2.2).length →
          ((sessionSlice day sess.2.1 sess.2.2).getD j default).high ≤ s.stop)) := by
  obtain ⟨dir, pts, zlo, zhi, i, -, -, heng, -, hdir, -⟩ := windowSetup_some_elim h
  obtain ⟨hq, -, -, hs⟩ :=
    (engulfingInWindow_some_iff (sessionSlice day sess.2.1 sess.2.2) dir zlo zhi
      i s.entry s.stop).mp heng
  have hilen : i < (sessionSlice day sess.2.1 sess.2.2).length := hq.2.1
  set w := sessionSlice day sess.2.1 sess.2.2 with hw
  have hab : (i - 3) + (i + 1 - (i - 3)) = i + 1 := by omega
  have hmem_i : w.getD i default ∈ (w.drop (i - 3)).take (i + 1 - (i - 3)) := by
    rw [mem_slice_iff]
    exact ⟨i, by omega, by omega, hilen, rfl⟩
  have hsl_ne : (w.drop (i - 3)).take (i + 1 - (i - 3)) ≠ [] := by
    intro hnil
    rw [hnil] at hmem_i
    exact List.not_mem_nil _ hmem_i
  refine ⟨dir, zlo, zhi, i, hdir, heng, ?_, ?_⟩
  · intro hd
    subst hd
    rw [hs]
    unfold stopPrice
    simp only []
    obtain ⟨⟨x, hx, he⟩, hball⟩ := minLow_spec _ hsl_ne
    constructor
    · rw [mem_slice_iff] at hx
      obtain ⟨j, hj1, hj2, hj3, hje⟩ := hx
      exact ⟨j, hj1, by omega, hj3, by rw [he, hje]⟩
    · intro j hj1 hj2 hj3
      exact hball _ ((mem_slice_iff w (i - 3) (i + 1 - (i - 3)) _).mpr
        ⟨j, hj1, by omega, hj3, rfl⟩)
  · intro hd
    subst hd
    rw [hs]
    unfold stopPrice
    simp only []
    obtain ⟨⟨x, hx, he⟩, hball⟩ := maxHigh_spec _ hsl_ne
    constructor
    · rw [mem_slice_iff] at hx
      obtain ⟨j, hj1, hj2, hj3, hje⟩ := hx
      exact ⟨j, hj1, by omega, hj3, by rw [he, hje]⟩
    · intro j hj1 hj2 hj3
      exact hball _ ((mem_slice_iff w (i - 3) (i + 1 - (i - 3)) _).mpr
        ⟨j, hj1, by omega, hj3, rfl⟩)

/-- C5 amended witness: instantiated on `day5`, whose SELL setup carries
entry 1360 and stop 1435. -/
theorem C5_witness :
    ∃ dir zlo zhi i,
      setup5.direction = dir ∧
      engulfingInWindow (sessionSlice day5 3 5) dir zlo zhi
        = some (i, setup5.entry, setup5.stop) ∧
      (dir = Direction.BUY →
        (∃ j, i - 3 ≤ j ∧ j ≤ i ∧ j < (sessionSlice day5 3 5).length ∧
          setup5.stop = ((sessionSlice day5 3 5).getD j default).low) ∧
        (∀ j, i - 3 ≤ j → j ≤ i → j < (sessionSlice day5 3 5).length →
          setup5.stop ≤ ((sessionSlice day5 3 5).getD j default).low)) ∧
      (dir = Direction.SELL →
        (∃ j, i - 3 ≤ j ∧ j ≤ i ∧ j < (sessionSlice day5 3 5).length ∧
          setup5.stop = ((sessionSlice day5 3 5).getD j default).high) ∧
        (∀ j, i - 3 ≤ j → j ≤ i → j < (sessionSlice day5 3 5).length →
          ((sessionSlice day5 3 5).getD j default).high ≤ setup5.stop)) :=
  C5_amended day5 ("LONDON", 3, 5) 3 setup5 (by decide)

/-- C2: counterexample.  The candles of `day1` strictly before 3:00 New York
(minute 180), the start of the earliest configured session window, number
only 5 — below the 10-candle minimum the engine's manipulation detector
demands — and this slice is exactly the engine's pre-window slice for the
London window; yet the day is not rejected: a TradeSetup is still
emitted. -/
theorem C2_counterexample :
    (day1.filter fun c => decide (c.time < 180)).length = 5 ∧ (5 : ℕ) < 10 ∧
    preWindowSlice day1 (sessionSlice day1 3 5)
      = (day1.filter fun c => decide (c.time < 180)) ∧
    findIntradaySetups day1 3 ≠ [] := by
  refine ⟨by decide, by decide, by decide, by decide⟩

/-- C2 (amended): the pre-window slice is computed per (day, session window)
as all candles of the day strictly before the first candle of that window's
slice; a pre-window slice with fewer than 10 candles does not reject the
day — it only disables manipulation detection (forcing the
CLEAN_DISTRIBUTION classification) — and only an empty pre-window slice
skips that single window; a day whose pre-window slice has 5 candles can
still emit a TradeSetup. -/
theorem C2_amended :
    (∀ (day w : List Candle), w ≠ [] → ∀ c : Candle,
      (c ∈ preWindowSlice day w ↔ c ∈ day ∧ c.time < (w.headD default).time)) ∧
    (∀ (pre : List Candle) (dir : Direction), pre.length < 10 →
      detectManipulationAndBos pre dir = false) ∧
    (∀ (day : List Candle) (sess : String × ℕ × ℕ) (r : ℚ),
      preWindowSlice day (sessionSlice day sess.2.1 sess.2.2) = [] →
      windowSetup day sess r = none) ∧
    ((preWindowSlice day1 (sessionSlice day1 3 5)).length < 10 ∧
      findIntradaySetups day1 3 ≠ []) := by
  refine ⟨?_, ?_, windowSetup_none_of_emptyPre, by decide, by decide⟩
  · intro day w hw c
    match w, hw with
    | hd :: tl, _ =>
      unfold preWindowSlice
      rw [List.mem_filter]
      simp only [List.headD_cons, decide_eq_true_eq]
  · intro pre dir hlen
    unfold detectManipulationAndBos
    rw [if_pos hlen]

/-- C2 witness: the membership characterization instantiated at `day1`'s
London window and its first candle, the short-slice rule at the 5-candle
`pre1`, and the empty-slice skip at the day `dayNoPre` whose only candle
lies inside the window. -/
theorem C2_witness :
    ((⟨0, 1000, 1005, 998, 1002⟩ : Candle) ∈ preWindowSlice day1 (sessionSlice day1 3 5) ↔
      (⟨0, 1000, 1005, 998, 1002⟩ : Candle) ∈ day1 ∧
        (0 : ℕ) < ((sessionSlice day1 3 5).headD default).time) ∧
    detectManipulationAndBos pre1 Direction.BUY = false ∧
    windowSetup dayNoPre ("LONDON", 3, 5) 3 = none :=
  ⟨C2_amended.1 day1 (sessionSlice day1 3 5) (by decide) _,
    C2_amended.2.1 pre1 Direction.BUY (by decide),
    C2_amended.2.2.1 dayNoPre ("LONDON", 3, 5) 3 (by decide)⟩

/-- C4: counterexample.  In the 4-candle list `preGap1` a bullish fair value
gap exists at centre index 1 (high of candle 0 is 10, which is below the low
11 of candle 2), an index the claim's range `1 ≤ i ≤ length-2` includes; it
is the only gap, so the claim selects it, yet `_find_recent_fvg_zone` — whose
scan `range(last_idx-1, 1, -1)` stops at centre index 2 — returns nothing,
and the session would emit no signal. -/
theorem C4_counterexample :
    findRecentFvgZone preGap1 Direction.BUY = none ∧
    (preGap1.getD 0 default).high < (preGap1.getD 2 default).low ∧
    (1 : ℕ) ≤ 1 ∧ (1 : ℕ) ≤ preGap1.length - 2 := by
  refine ⟨by decide, by decide, by decide, by decide⟩

/-- C4 (amended): `_find_recent_fvg_zone` returns a zone iff some centre
index in `2 ≤ i ≤ length-2` — index 1 is never scanned — passes the
direction's gap test, and the zone returned is the one at the largest such
index (the most recent by creating-candle index); when it returns nothing
the window emits no TradeSetup. -/
theorem C4_amended :
    (∀ (pre : List Candle) (dir : Direction) (z : ℚ × ℚ),
      findRecentFvgZone pre dir = some z ↔
        3 ≤ pre.length ∧
          ∃ i, 2 ≤ i ∧ i ≤ pre.length - 2 ∧ fvgCheck pre dir i = true ∧
            z = fvgZoneAt pre dir i ∧
            ∀ j, i < j → j ≤ pre.length - 2 → fvgCheck pre dir j = false) ∧
    (∀ (day : List Candle) (sess : String × ℕ × ℕ) (r : ℚ) (dir : Direction) (pts : ℚ),
      calcDominantMove (preWindowSlice day (sessionSlice day sess.2.1 sess.2.2))
        = (some dir, pts) →
      findRecentFvgZone (preWindowSlice day (sessionSlice day sess.2.1 sess.2.2)) dir = none →
      windowSetup day sess r = none) :=
  ⟨findRecentFvgZone_some_iff, windowSetup_none_of_noZone⟩

/-- C4 witness: the forward direction instantiated on `day1`'s pre-window
slice (zone (1010, 1180) at centre index 3) and the no-zone skip on the
gap-free day `dayNoFvg`. -/
theorem C4_witness :
    (3 ≤ pre1.length ∧
      ∃ i, 2 ≤ i ∧ i ≤ pre1.length - 2 ∧ fvgCheck pre1 Direction.BUY i = true ∧
        ((1010 : ℚ), (1180 : ℚ)) = fvgZoneAt pre1 Direction.BUY i ∧
        ∀ j, i < j → j ≤ pre1.length - 2 → fvgCheck pre1 Direction.BUY j = false) ∧
    windowSetup dayNoFvg ("LONDON", 3, 5) 3 = none :=
  ⟨(C4_amended.1 pre1 Direction.BUY (1010, 1180)).mp (by decide),
    C4_amended.2 dayNoFvg ("LONDON", 3, 5) 3 Direction.BUY 750 (by decide) (by decide)⟩

/-- C7: at most one TradeSetup per (day, session window) — each session
window of a day contributes at most one entry to the result list of
`find_intraday_setups` and carries its window's name — and the
confirmation the scan returns is the first qualifying window candle: no
earlier index passes the full confirmation test, later candles are never
reached. -/
theorem C7_single_setup_per_window :
    (∀ (day : List Candle) (r : ℚ) (name : String),
      ((findIntradaySetups day r).filter fun s => decide (s.session_name = name)).length ≤ 1) ∧
    (∀ (w : List Candle) (dir : Direction) (zlo zhi : ℚ) (j : ℕ) (e s : ℚ),
      engulfingInWindow w dir zlo zhi = some (j, e, s) →
        qualAt dir zlo zhi w j ∧ ∀ i, i < j → ¬ qualAt dir zlo zhi w i) := by
  constructor
  · intro day r name
    have hL : ∀ s, windowSetup day ("LONDON", 3, 5) r = some s → s.session_name = "LONDON" :=
      fun s h => windowSetup_session day ("LONDON", 3, 5) r s h
    have hN : ∀ s, windowSetup day ("NEW_YORK", 8, 10) r = some s →
        s.session_name = "NEW_YORK" :=
      fun s h => windowSetup_session day ("NEW_YORK", 8, 10) r s h
    unfold findIntradaySetups SESSION_WINDOWS
    rcases h1 : windowSetup day ("LONDON", 3, 5) r with _ | s1 <;>
      rcases h2 : windowSetup day ("NEW_YORK", 8, 10) r with _ | s2 <;>
      simp only [List.filterMap_cons, h1, h2, List.filterMap_nil, List.filter_nil,
        List.length_nil, List.filter_cons]
    · omega
    · split <;> simp
    · split <;> simp
    · have hs1 := hL s1 h1
      have hs2 := hN s2 h2
      by_cases e1 : s1.session_name = name <;> by_cases e2 : s2.session_name = name
      · exfalso
        rw [hs1] at e1
        rw [hs2] at e2
        rw [← e1] at e2
        exact absurd e2 (by decide)
      · simp [e1, e2]
      · simp [e1, e2]
      · simp [e1, e2]
  · intro w dir zlo zhi j e s h
    obtain ⟨hq, hmin, -, -⟩ := (engulfingInWindow_some_iff w dir zlo zhi j e s).mp h
    exact ⟨hq, hmin⟩

/-- C7 witness: on `day1` (with r-multiple 3) the London-named setups number
at most 1, and the confirmation at window index 2 is the first qualifying
index — index 1 does not qualify. -/
theorem C7_witness :
    ((findIntradaySetups day1 3).filter fun s => decide (s.session_name = "LONDON")).length ≤ 1 ∧
    ¬ qualAt Direction.BUY 1010 1180 (sessionSlice day1 3 5) 1 :=
  ⟨C7_single_setup_per_window.1 day1 3 "LONDON",
    (C7_single_setup_per_window.2 (sessionSlice day1 3 5) Direction.BUY 1010 1180
      2 1100 1048 (by decide)).2 1 (by omega)⟩

/-- C8: counterexample.  On `day3` the dominant move over the candles before
the earliest configured window (3:00, minute 180) is only 5 points — far
below `DOMINANT_MOVE_MIN_POINTS` — so by the claim the whole day is NO_BIAS
and emits nothing; the engine only skips the London window and still emits a
New York setup, because it recomputes the pre-window slice (and its
dominant move, here 205 points) per window. -/
theorem C8_counterexample :
    |((day3.filter fun c => decide (c.time < 180)).getLastD default).close -
      ((day3.filter fun c => decide (c.time < 180)).headD default).open_|
        < DOMINANT_MOVE_MIN_POINTS ∧
    (findIntradaySetups day3 3).map (·.session_name) = ["NEW_YORK"] := by
  refine ⟨by decide, by decide⟩

/-- C8 (amended): the dominant move is per (day, session window): it is the
close of the last candle minus the open of the first candle of that
window's own pre-window slice; when its absolute value is below
`DOMINANT_MOVE_MIN_POINTS` only that window is skipped (other windows of
the day may still trade), and an emitted setup's direction is BUY exactly
when the difference is positive, with the absolute move recorded in
`dominant_move_points`. -/
theorem C8_amended :
    (∀ (day : List Candle) (sess : String × ℕ × ℕ) (r : ℚ),
      preWindowSlice day (sessionSlice day sess.2.1 sess.2.2) ≠ [] →
      |((preWindowSlice day (sessionSlice day sess.2.1 sess.2.2)).getLastD default).close -
        ((preWindowSlice day (sessionSlice day sess.2.1 sess.2.2)).headD default).open_|
          < DOMINANT_MOVE_MIN_POINTS →
      windowSetup day sess r = none) ∧
    (∀ (day : List Candle) (sess : String × ℕ × ℕ) (r : ℚ) (s : TradeSetup),
      windowSetup day sess r = some s →
      DOMINANT_MOVE_MIN_POINTS ≤
        |((preWindowSlice day (sessionSlice day sess.2.1 sess.2.2)).getLastD default).close -
          ((preWindowSlice day (sessionSlice day sess.2.1 sess.2.2)).headD default).open_| ∧
      s.dominant_move_points =
        |((preWindowSlice day (sessionSlice day sess.2.1 sess.2.2)).getLastD default).close -
          ((preWindowSlice day (sessionSlice day sess.2.1 sess.2.2)).headD default).open_| ∧
      s.direction =
        (if 0 < ((preWindowSlice day (sessionSlice day sess.2.1 sess.2.2)).getLastD default).close -
            ((preWindowSlice day (sessionSlice day sess.2.1 sess.2.2)).headD default).open_
          then Direction.BUY else Direction.SELL)) := by
  refine ⟨windowSetup_none_of_smallMove, ?_⟩
  intro day sess r s h
  obtain ⟨dir, pts, zlo, zhi, i, hdom, -, -, -, hdir, -, hpts, -⟩ :=
    windowSetup_some_elim h
  obtain ⟨hge, hpe, hde⟩ := calcDominantMove_some hdom
  exact ⟨hge, by rw [hpts, hpe], by rw [hdir, hde]⟩

/-- C8 witness: the small-move skip instantiated on `day3`'s London window
(move 5 < 150) and the emission facts on `day1`'s London setup (move 200,
direction BUY). -/
theorem C8_witness :
    windowSetup day3 ("LONDON", 3, 5) 3 = none ∧
    (DOMINANT_MOVE_MIN_POINTS ≤
      |((preWindowSlice day1 (sessionSlice day1 3 5)).getLastD default).close -
        ((preWindowSlice day1 (sessionSlice day1 3 5)).headD default).open_| ∧
    setup1.dominant_move_points =
      |((preWindowSlice day1 (sessionSlice day1 3 5)).getLastD default).close -
        ((preWindowSlice day1 (sessionSlice day1 3 5)).headD default).open_| ∧
    setup1.direction =
      (if 0 < ((preWindowSlice day1 (sessionSlice day1 3 5)).getLastD default).close -
          ((preWindowSlice day1 (sessionSlice day1 3 5)).headD default).open_
        then Direction.BUY else Direction.SELL)) :=
  ⟨C8_amended.1 day3 ("LONDON", 3, 5) 3 (by decide) (by decide),
    C8_amended.2 day1 ("LONDON", 3, 5) 3 setup1 (by decide)⟩

/-- C6: counterexample.  The claim's manipulation test (extremum in the
recency tail and impulse exceeding the minimum) holds on the 5-candle slice
`pre1` — lowest low 998 at index 0, trivially within the final 15 of a
5-candle lookback, impulse 202 — yet the engine classifies it
CLEAN_DISTRIBUTION because slices shorter than 10 candles are never tested;
and on the 10-candle slice `pre6` the engine classifies MANIPULATION_BOS at
an impulse of exactly 120, which does not strictly exceed the minimum as
the claim demands. -/
theorem C6_counterexample :
    (claimManipulation pre1 Direction.BUY ∧
      detectManipulationAndBos pre1 Direction.BUY = false) ∧
    (detectManipulationAndBos pre6 Direction.BUY = true ∧
      ¬ claimManipulation pre6 Direction.BUY) := by
  refine ⟨⟨by decide, by decide⟩, by decide, by decide⟩

/-- C6 (amended): for a pre-window slice of at least 10 candles, the day is
classified MANIPULATION_BOS iff, over the last `PRE_WINDOW_LOOKBACK_CANDLES`
candles, the first index attaining the extremum opposing the dominant
direction falls within the final `MANIPULATION_RECENT_CANDLES` positions and
the move from that extremum to the slice's last close is at least (not
strictly above) `MANIPULATION_BOS_MIN_POINTS`; slices of fewer than 10
candles are always CLEAN_DISTRIBUTION; and both classifications keep the
dominant direction, which the emitted setup carries unchanged. -/
theorem C6_amended :
    (∀ pre : List Candle,
      detectManipulationAndBos pre Direction.BUY = true ↔
        10 ≤ pre.length ∧
          ∃ i, i < ((pre.drop (pre.length - PRE_WINDOW_LOOKBACK_CANDLES)).map (·.low)).length ∧
            (∀ j, j < ((pre.drop (pre.length - PRE_WINDOW_LOOKBACK_CANDLES)).map (·.low)).length →
              ((pre.drop (pre.length - PRE_WINDOW_LOOKBACK_CANDLES)).map (·.low)).getD i 0 ≤
                ((pre.drop (pre.length - PRE_WINDOW_LOOKBACK_CANDLES)).map (·.low)).getD j 0) ∧
            (∀ j, j < i →
              ((pre.drop (pre.length - PRE_WINDOW_LOOKBACK_CANDLES)).map (·.low)).getD i 0 <
                ((pre.drop (pre.length - PRE_WINDOW_LOOKBACK_CANDLES)).map (·.low)).getD j 0) ∧
            ((pre.drop (pre.length - PRE_WINDOW_LOOKBACK_CANDLES)).length : ℤ) -
              MANIPULATION_RECENT_CANDLES ≤ (i : ℤ) ∧
            MANIPULATION_BOS_MIN_POINTS ≤
              ((pre.drop (pre.length - PRE_WINDOW_LOOKBACK_CANDLES)).getLastD default).close -
                ((pre.drop (pre.length - PRE_WINDOW_LOOKBACK_CANDLES)).map (·.low)).getD i 0) ∧
    (∀ pre : List Candle,
      detectManipulationAndBos pre Direction.SELL = true ↔
        10 ≤ pre.length ∧
          ∃ i, i < ((pre.drop (pre.length - PRE_WINDOW_LOOKBACK_CANDLES)).map (·.high)).length ∧
            (∀ j, j < ((pre.drop (pre.length - PRE_WINDOW_LOOKBACK_CANDLES)).map (·.high)).length →
              ((pre.drop (pre.length - PRE_WINDOW_LOOKBACK_CANDLES)).map (·.high)).getD j 0 ≤
                ((pre.drop (pre.length - PRE_WINDOW_LOOKBACK_CANDLES)).map (·.high)).getD i 0) ∧
            (∀ j, j < i →
              ((pre.drop (pre.length - PRE_WINDOW_LOOKBACK_CANDLES)).map (·.high)).getD j 0 <
                ((pre.drop (pre.length - PRE_WINDOW_LOOKBACK_CANDLES)).map (·.high)).getD i 0) ∧
            ((pre.drop (pre.length - PRE_WINDOW_LOOKBACK_CANDLES)).length : ℤ) -
              MANIPULATION_RECENT_CANDLES ≤ (i : ℤ) ∧
            MANIPULATION_BOS_MIN_POINTS ≤
              ((pre.drop (pre.length - PRE_WINDOW_LOOKBACK_CANDLES)).map (·.high)).getD i 0 -
                ((pre.drop (pre.length - PRE_WINDOW_LOOKBACK_CANDLES)).getLastD default).close) ∧
    (∀ (day : List Candle) (sess : String × ℕ × ℕ) (r : ℚ) (s : TradeSetup),
      windowSetup day sess r = some s →
      s.direction = s.dominant_move_direction ∧
      s.setup_type = (if detectManipulationAndBos
          (preWindowSlice day (sessionSlice day sess.2.1 sess.2.2)) s.direction
        then SetupType.SETUP_2_MANIPULATION_BOS
        else SetupType.SETUP_1_CLEAN_DISTRIBUTION)) := by
  refine ⟨?_, ?_, ?_⟩
  · intro pre
    unfold detectManipulationAndBos
    split
    · rename_i hlen
      constructor
      · intro h; exact absurd h (by simp)
      · rintro ⟨h10, -⟩; omega
    · rename_i hlen
      push_neg at hlen
      simp only [Bool.and_eq_true, decide_eq_true_eq]
      have hlb : (pre.drop (pre.length - PRE_WINDOW_LOOKBACK_CANDLES)).length
          = pre.length - (pre.length - PRE_WINDOW_LOOKBACK_CANDLES) := List.length_drop _ _
      have hlbpos : 0 < (pre.drop (pre.length - PRE_WINDOW_LOOKBACK_CANDLES)).length := by
        rw [hlb]
        unfold PRE_WINDOW_LOOKBACK_CANDLES
        omega
      have hne : (pre.drop (pre.length - PRE_WINDOW_LOOKBACK_CANDLES)).map (·.low) ≠ [] := by
        intro hnil
        have := congrArg List.length hnil
        rw [List.length_map] at this
        simp at this
        omega
      have hmaplen : ((pre.drop (pre.length - PRE_WINDOW_LOOKBACK_CANDLES)).map (·.low)).length
          = (pre.drop (pre.length - PRE_WINDOW_LOOKBACK_CANDLES)).length := List.length_map _ _
      obtain ⟨ha, hamin, hafirst⟩ := argmin_spec _ hne
      constructor
      · rintro ⟨hc1, hc2⟩
        exact ⟨hlen, argmin _, ha, hamin, hafirst, hc1, hc2⟩
      · rintro ⟨-, i, hi, hmin, hfirst, hc1, hc2⟩
        have hie : i = argmin ((pre.drop (pre.length - PRE_WINDOW_LOOKBACK_CANDLES)).map (·.low)) :=
          argmin_unique _ hne i hi hmin hfirst
        subst hie
        exact ⟨hc1, hc2⟩
  · intro pre
    unfold detectManipulationAndBos
    split
    · rename_i hlen
      constructor
      · intro h; exact absurd h (by simp)
      · rintro ⟨h10, -⟩; omega
    · rename_i hlen
      push_neg at hlen
      simp only [Bool.and_eq_true, decide_eq_true_eq]
      have hlb : (pre.drop (pre.length - PRE_WINDOW_LOOKBACK_CANDLES)).length
          = pre.length - (pre.length - PRE_WINDOW_LOOKBACK_CANDLES) := List.length_drop _ _
      have hne : (pre.drop (pre.length - PRE_WINDOW_LOOKBACK_CANDLES)).map (·.high) ≠ [] := by
        intro hnil
        have := congrArg List.length hnil
        rw [List.length_map] at this
        simp at this
        unfold PRE_WINDOW_LOOKBACK_CANDLES at this
        omega
      have hmaplen : ((pre.drop (pre.length - PRE_WINDOW_LOOKBACK_CANDLES)).map (·.high)).length
          = (pre.drop (pre.length - PRE_WINDOW_LOOKBACK_CANDLES)).length := List.length_map _ _
      obtain ⟨ha, hamax, hafirst⟩ := argmax_spec _ hne
      constructor
      · rintro ⟨hc1, hc2⟩
        exact ⟨hlen, argmax _, ha, hamax, hafirst, hc1, hc2⟩
      · rintro ⟨-, i, hi, hmax, hfirst, hc1, hc2⟩
        have hie : i = argmax ((pre.drop (pre.length - PRE_WINDOW_LOOKBACK_CANDLES)).map (·.high)) :=
          argmax_unique _ hne i hi hmax hfirst
        subst hie
        exact ⟨hc1, hc2⟩
  · intro day sess r s h
    obtain ⟨dir, pts, zlo, zhi, i, -, -, -, -, hdir, hdmd, -, htype, -⟩ :=
      windowSetup_some_elim h
    refine ⟨by rw [hdir, hdmd], ?_⟩
    rw [htype, hdir]

/-- C6 witness: the BUY characterization instantiated on the 10-candle slice
`pre6` (classified MANIPULATION_BOS at impulse exactly 120), and the
direction/classification retention on `day1`'s emitted setup. -/
theorem C6_witness :
    (10 ≤ pre6.length ∧
      ∃ i, i < ((pre6.drop (pre6.length - PRE_WINDOW_LOOKBACK_CANDLES)).map (·.low)).length ∧
        (∀ j, j < ((pre6.drop (pre6.length - PRE_WINDOW_LOOKBACK_CANDLES)).map (·.low)).length →
          ((pre6.drop (pre6.length - PRE_WINDOW_LOOKBACK_CANDLES)).map (·.low)).getD i 0 ≤
            ((pre6.drop (pre6.length - PRE_WINDOW_LOOKBACK_CANDLES)).map (·.low)).getD j 0) ∧
        (∀ j, j < i →
          ((pre6.drop (pre6.length - PRE_WINDOW_LOOKBACK_CANDLES)).map (·.low)).getD i 0 <
            ((pre6.drop (pre6.length - PRE_WINDOW_LOOKBACK_CANDLES)).map (·.low)).getD j 0) ∧
        ((pre6.drop (pre6.length - PRE_WINDOW_LOOKBACK_CANDLES)).length : ℤ) -
          MANIPULATION_RECENT_CANDLES ≤ (i : ℤ) ∧
        MANIPULATION_BOS_MIN_POINTS ≤
          ((pre6.drop (pre6.length - PRE_WINDOW_LOOKBACK_CANDLES)).getLastD default).close -
            ((pre6.drop (pre6.length - PRE_WINDOW_LOOKBACK_CANDLES)).map (·.low)).getD i 0) ∧
    (setup1.direction = setup1.dominant_move_direction ∧
      setup1.setup_type = (if detectManipulationAndBos
          (preWindowSlice day1 (sessionSlice day1 3 5)) setup1.direction
        then SetupType.SETUP_2_MANIPULATION_BOS
        else SetupType.SETUP_1_CLEAN_DISTRIBUTION)) :=
  ⟨(C6_amended.1 pre6).mp (by decide),
    C6_amended.2.2 day1 ("LONDON", 3, 5) 3 setup1 (by decide)⟩
